import Mathlib

/-!
Shallow embedding of the "autobrowser" curiosity engine (brain.js, memory.js,
dreamer.js, genetics.js) and verification of the frozen claims about it.

Modelling conventions:
* JS numbers are embedded as `ℚ` (weights, gene values, similarities) except
  where the source computes a natural logarithm, which forces `ℝ`
  (`scoreForPromotion`).
* `Date.now()` timestamps are `ℤ` millisecond values passed in as a `now`
  parameter; the periodic timers of the source become explicit entry points.
* `Math.random()` is embedded as an explicit stream `r : ℕ → ℚ` together with
  a cursor `k : ℕ`; every call of the source consumes one stream element, in
  source order.  Theorems that need it assume `0 ≤ r i < 1`.
* JS `Map`s (insertion ordered) are association lists `List (String × α)`;
  `Map.get` is `alistLookup` (first match), `Map.set` on an existing key is
  `updateEntry`/`setAssoc`, on a fresh key an append.
* In-place object mutation is modelled by functional update of the map entry;
  aliasing between the `interests` snapshot array and the live map is handled
  by re-reading nodes from the map wherever the source reads a live object.
-/

namespace AutoBrowser

/-! ### Generic association-list helpers -/

/-- `Map.get`: first entry with the given key. -/
def alistLookup {α : Type} : List (String × α) → String → Option α
  | [], _ => none
  | (k, v) :: rest, t => if k = t then some v else alistLookup rest t

/-- In-place mutation of the object stored at a key (identity on other keys). -/
def updateEntry {α : Type} (m : List (String × α)) (t : String) (f : α → α) :
    List (String × α) :=
  m.map fun p => if p.1 = t then (p.1, f p.2) else p

/-- Apply `f` to every stored value (`Map.forEach` mutating each value). -/
def mapValues {α : Type} (f : α → α) (m : List (String × α)) : List (String × α) :=
  m.map fun p => (p.1, f p.2)

/-- `Map.set`: overwrite an existing key, else append (insertion order). -/
def setAssoc {α : Type} (m : List (String × α)) (t : String) (v : α) :
    List (String × α) :=
  if (alistLookup m t).isSome then m.map (fun p => if p.1 = t then (p.1, v) else p)
  else m ++ [(t, v)]

/-- JS `new Set(list)` iteration order: deduplicate keeping first occurrences. -/
def dedupFirst : List String → List String
  | [] => []
  | x :: rest => x :: dedupFirst (rest.filter (fun y => y ≠ x))
termination_by l => l.length
decreasing_by
  simp only [List.length_cons]
  exact Nat.lt_succ_of_le (List.length_filter_le _ _)

/-- `String.prototype.toLowerCase` (over the character list, so that it
evaluates inside the kernel). -/
def toLower (s : String) : String := ⟨s.data.map Char.toLower⟩

/-- `String.prototype.trim`: drop leading and trailing whitespace. -/
def trimString (s : String) : String :=
  ⟨((s.data.dropWhile Char.isWhitespace).reverse.dropWhile Char.isWhitespace).reverse⟩

/-- Split at every whitespace character (the `/\s+/` split of the source;
empty fragments between consecutive separators are dropped downstream by the
length filter, as in the source). -/
def splitWhitespaceAux : List Char → List Char → List String
  | [], cur => [⟨cur.reverse⟩]
  | c :: rest, cur =>
    if c.isWhitespace then ⟨cur.reverse⟩ :: splitWhitespaceAux rest []
    else splitWhitespaceAux rest (c :: cur)

def splitWhitespace (s : String) : List String := splitWhitespaceAux s.data []

/-- `topic.toLowerCase().trim()`, the identity key normalization of the graph. -/
def normalize (topic : String) : String := trimString (toLower topic)

/-! ### CuriosityEngine (brain.js) configuration -/

def decayRate : ℚ := 1 / 10000
def reinforcementFactor : ℚ := 3 / 10
def connectionThreshold : ℚ := 1 / 5
def coreThreshold : ℚ := 7 / 10
def maxShortTermInterests : ℕ := 50
def initialWeight : ℚ := 1 / 2
def maxWeight : ℚ := 1
def minWeight : ℚ := 1 / 20

/-! ### Interest nodes -/

inductive MemoryType
  | shortTerm
  | longTerm
  | core
deriving DecidableEq, Repr

/-- An interest node of the graph.  `promotedAt` and `dreamConnections` are the
fields the consolidator / dreamer attach dynamically in the source. -/
structure InterestNode where
  topic : String
  weight : ℚ
  connections : List String
  lastActive : ℤ
  createdAt : ℤ
  accessCount : ℕ
  isCore : Bool
  memoryType : MemoryType
  keywords : List String
  promotedAt : Option ℤ := none
  dreamConnections : List (String × ℤ) := []
deriving DecidableEq, Repr

/-- A `{from, to, strength, createdAt}` entry of the connection log. -/
structure ConnectionEntry where
  fromTopic : String
  toTopic : String
  strength : ℚ
  createdAt : ℤ
deriving DecidableEq, Repr

/-- The state owned by the CuriosityEngine singleton. -/
structure BrainState where
  interests : List (String × InterestNode)
  connections : List ConnectionEntry
deriving DecidableEq, Repr

/-! ### Keyword extraction and similarity -/

def stopWords : List String :=
  ["the", "a", "an", "and", "or", "but", "in", "on", "at", "to", "for", "of",
   "with", "by"]

/-- `extractKeywords`: lower-case, split on whitespace, drop stop words and
words of length ≤ 2. -/
def extractKeywords (topic : String) : List String :=
  (splitWhitespace (toLower topic)).filter
    fun word => 2 < word.length ∧ word ∉ stopWords

/-- `calculateSimilarity`: Jaccard index of the two keyword sets, 0 when either
set is empty. -/
def calculateSimilarity (topic1 topic2 : String) : ℚ :=
  let keywords1 := (extractKeywords topic1).toFinset
  let keywords2 := (extractKeywords topic2).toFinset
  if keywords1.card = 0 ∨ keywords2.card = 0 then 0
  else ((keywords1 ∩ keywords2).card : ℚ) / ((keywords1 ∪ keywords2).card : ℚ)

/-! ### Node lifecycle operations -/

/-- `createInterestNode` (the `weight` argument is always `null` at the only
call site, so the node starts at `initialWeight`). -/
def createInterestNode (now : ℤ) (topic : String) : InterestNode :=
  { topic := normalize topic
    weight := initialWeight
    connections := []
    lastActive := now
    createdAt := now
    accessCount := 1
    isCore := false
    memoryType := .shortTerm
    keywords := extractKeywords topic }

/-- The per-node body of `updateCoreStatus`: recompute `isCore` from the weight
threshold, move newly-core nodes to `core`, and demote nodes that left the
threshold from `core` to `long-term`. -/
def updateCoreNode (node : InterestNode) : InterestNode :=
  let wasCore := node.isCore
  let isCore := decide (coreThreshold ≤ node.weight)
  if isCore && !wasCore then { node with isCore := isCore, memoryType := .core }
  else if !isCore && decide (node.memoryType = .core) then
    { node with isCore := isCore, memoryType := .longTerm }
  else { node with isCore := isCore }

/-- `updateCoreStatus` over the whole graph. -/
def updateCoreStatus (m : List (String × InterestNode)) :
    List (String × InterestNode) :=
  mapValues updateCoreNode m

/-- The per-node decay of `applyDecay`: core nodes decay at 0.1×, long-term
nodes at 0.3×, and the weight floors at 0. -/
def decayNode (now : ℤ) (node : InterestNode) : InterestNode :=
  let decayMultiplier : ℚ := if node.isCore then 1 / 10 else 1
  let memoryMultiplier : ℚ := if node.memoryType = .longTerm then 3 / 10 else 1
  let age : ℚ := ((now - node.lastActive : ℤ) : ℚ)
  let decayAmount := decayRate * age * decayMultiplier * memoryMultiplier
  { node with weight := max (node.weight - decayAmount) 0 }

/-- `removeInterest`: clean the topic out of every connected node's adjacency,
purge its log entries, and delete the node. -/
def removeInterest (st : BrainState) (topic : String) : BrainState :=
  match alistLookup st.interests topic with
  | none => st
  | some node =>
    let m := node.connections.foldl
      (fun acc ct => updateEntry acc ct
        (fun c => { c with connections := c.connections.filter (fun t => t ≠ topic) }))
      st.interests
    { interests := m.filter fun p => p.1 ≠ topic
      connections := st.connections.filter
        fun c => c.fromTopic ≠ topic ∧ c.toTopic ≠ topic }

/-- `applyDecay`: decay every node, remove the ones that fell below
`minWeight`, then re-evaluate core status. -/
def applyDecay (now : ℤ) (st : BrainState) : BrainState :=
  let decayed : BrainState := { st with interests := mapValues (decayNode now) st.interests }
  let toRemove := (decayed.interests.filter fun p => p.2.weight < minWeight).map Prod.fst
  let st' := toRemove.foldl removeInterest decayed
  { st' with interests := updateCoreStatus st'.interests }

/-- `removeWeakestInterest`: the strict-minimum-weight non-core node, scanning
in insertion order (`null` when every node is core or the graph is empty). -/
def weakestTopic (m : List (String × InterestNode)) : Option String :=
  (m.foldl
    (fun best p =>
      if p.2.isCore then best
      else
        match best with
        | none => some (p.1, p.2.weight)
        | some (_, w) => if p.2.weight < w then some (p.1, p.2.weight) else best)
    none).map Prod.fst

def removeWeakestInterest (st : BrainState) : BrainState :=
  match weakestTopic st.interests with
  | some t => removeInterest st t
  | none => st

/-- The in-place mutation `reinforceInterest` applies to the reinforced node
itself: bump the weight (capped at `maxWeight`), touch `lastActive`, increment
`accessCount`. -/
def reinforceSelfNode (now : ℤ) (strength : ℚ) (n : InterestNode) : InterestNode :=
  { n with weight := min (n.weight + strength) maxWeight
           lastActive := now
           accessCount := n.accessCount + 1 }

/-- The in-place mutation `reinforceInterest` applies to each directly
connected node: the propagated `strength × reinforcementFactor` gain (capped)
and a fresh `lastActive`. -/
def reinforceNeighborNode (now : ℤ) (strength : ℚ) (n : InterestNode) : InterestNode :=
  { n with weight := min (n.weight + strength * reinforcementFactor) maxWeight
           lastActive := now }

/-- One iteration of the connected-interests loop of `reinforceInterest`
(`if (connected) { ... }`). -/
def reinforceConnectedStep (now : ℤ) (strength : ℚ)
    (m : List (String × InterestNode)) (ct : String) :
    List (String × InterestNode) :=
  match alistLookup m ct with
  | none => m
  | some _ => updateEntry m ct (reinforceNeighborNode now strength)

/-- `reinforceInterest`: bump the node's weight (capped at `maxWeight`), touch
`lastActive` and `accessCount`, then propagate `strength × reinforcementFactor`
(capped) to every directly connected node, touching their `lastActive` too. -/
def reinforceInterest (now : ℤ) (st : BrainState) (topic : String) (strength : ℚ) :
    BrainState :=
  match alistLookup st.interests topic with
  | none => st
  | some node =>
    let m₁ := updateEntry st.interests topic (reinforceSelfNode now strength)
    let m₂ := node.connections.foldl (reinforceConnectedStep now strength) m₁
    { st with interests := m₂ }

/-- One iteration of the `findAndCreateConnections` scan for `otherTopic`. -/
def fccStep (now : ℤ) (topic : String) (acc : BrainState) (otherTopic : String) :
    BrainState :=
  if otherTopic = topic then acc
  else
    let similarity := calculateSimilarity topic otherTopic
    if connectionThreshold ≤ similarity then
      let acc := { acc with interests := updateEntry acc.interests topic fun n =>
        if otherTopic ∈ n.connections then n
        else { n with connections := n.connections ++ [otherTopic] } }
      let acc := { acc with interests := updateEntry acc.interests otherTopic fun n =>
        if topic ∈ n.connections then n
        else { n with connections := n.connections ++ [topic] } }
      let acc := { acc with connections :=
        acc.connections ++ [(⟨topic, otherTopic, similarity, now⟩ : ConnectionEntry)] }
      { acc with interests := updateEntry acc.interests otherTopic fun n =>
        { n with weight := min (n.weight + 1 / 20) maxWeight } }
    else acc

/-- `findAndCreateConnections`: scan every existing node, create symmetric
links above `connectionThreshold`, log them, and bump the other node. -/
def findAndCreateConnections (now : ℤ) (st : BrainState) (topic : String) :
    BrainState :=
  match alistLookup st.interests topic with
  | none => st
  | some _ => (st.interests.map Prod.fst).foldl (fccStep now topic) st

/-- The branch of `addInterest` before its final `updateCoreStatus`:
reinforce an existing topic, or create a new node (evicting the weakest
non-core node at capacity) and scan for connections. -/
def addInterestBody (now : ℤ) (st : BrainState) (topic : String) (strength : ℚ) :
    BrainState :=
  if (alistLookup st.interests (normalize topic)).isSome then
    reinforceInterest now st (normalize topic) strength
  else
    let st₁ :=
      if maxShortTermInterests ≤ st.interests.length then removeWeakestInterest st
      else st
    let st₂ : BrainState :=
      { st₁ with interests :=
          st₁.interests ++ [(normalize topic, createInterestNode now topic)] }
    findAndCreateConnections now st₂ (normalize topic)

/-- `addInterest` (the spec's `addOrReinforce`): the branch above followed by
`updateCoreStatus` over the whole graph. -/
def addInterest (now : ℤ) (st : BrainState) (topic : String) (strength : ℚ) :
    BrainState :=
  { addInterestBody now st topic strength with
    interests := updateCoreStatus (addInterestBody now st topic strength).interests }

/-! ### MemoryConsolidator (memory.js) -/

noncomputable def promotionThreshold : ℝ := 3 / 5
def clusterSimilarityThreshold : ℚ := 3 / 10

/-- The `{total, breakdown}` record returned by `scoreForPromotion`. -/
structure PromotionScore where
  total : ℝ
  weightScore : ℝ
  connectionScore : ℝ
  accessScore : ℝ
  recencyScore : ℝ

/-- `scoreForPromotion`: weighted sum of four normalized sub-scores (weight,
connections, log-access frequency, recency).  Real-valued because the source
takes a natural logarithm. -/
noncomputable def scoreForPromotion (now : ℤ) (interest : InterestNode) :
    PromotionScore :=
  let weightScore : ℝ := min ((interest.weight : ℝ) / 1) 1
  let connectionScore : ℝ := min ((interest.connections.length : ℝ) / 10) 1
  let accessScore : ℝ :=
    min (Real.log ((interest.accessCount : ℝ) + 1) / Real.log (50 + 1)) 1
  let age : ℝ := ((now - interest.lastActive : ℤ) : ℝ)
  let recencyScore : ℝ := max (1 - age / (7 * 24 * 60 * 60 * 1000)) 0
  { total := weightScore * 0.30 + connectionScore * 0.30 +
      accessScore * 0.20 + recencyScore * 0.20
    weightScore := weightScore
    connectionScore := connectionScore
    accessScore := accessScore
    recencyScore := recencyScore }

/-- `calculateRetention`: the Ebbinghaus retention primitive (defined by the
source but consulted by no decision path). -/
noncomputable def calculateRetention (interest : InterestNode) (elapsedTime : ℚ) : ℝ :=
  let strength : ℝ := 1 + (interest.accessCount : ℝ) * 0.1 +
    (interest.connections.length : ℝ) * 0.2
  let hours : ℝ := (elapsedTime : ℝ) / (60 * 60 * 1000)
  Real.exp (-hours / (strength * 24))

/-- Mutate the first long-term entry with the given topic (`Array.find`
returns the first match and the source mutates that object in place). -/
def mergeFirstByTopic : List InterestNode → String →
    (InterestNode → InterestNode) → List InterestNode
  | [], _, _ => []
  | m :: rest, t, f =>
    if m.topic = t then f m :: rest else m :: mergeFirstByTopic rest t f

/-- `promoteToLongTerm`: mark the brain node long-term and merge it into the
long-term store (`max` weight, summed access counts, unioned connections;
a ``{...interest}`` copy is appended when the topic is new there). -/
def promoteToLongTerm (now : ℤ) (brain : BrainState) (ltm : List InterestNode)
    (interest : InterestNode) : BrainState × List InterestNode :=
  (⟨updateEntry brain.interests interest.topic
      (fun n => { n with memoryType := .longTerm, promotedAt := some now }),
    brain.connections⟩,
   if (ltm.find? fun m => m.topic = interest.topic).isSome then
     mergeFirstByTopic ltm interest.topic fun existing =>
       { existing with
           weight := max existing.weight interest.weight
           accessCount := existing.accessCount + interest.accessCount
           connections := dedupFirst (existing.connections ++ interest.connections)
           lastActive := now }
   else ltm ++ [{ interest with memoryType := .longTerm, promotedAt := some now }])

/-- `findBestCluster`: best existing cluster by average member similarity,
required to exceed `clusterSimilarityThreshold` and the running best. -/
def findBestCluster (clusters : List (String × List String))
    (memory : InterestNode) : Option String :=
  (clusters.foldl
    (fun (acc : Option String × ℚ) c =>
      let topics := c.2
      let totalSimilarity := (topics.map fun t => calculateSimilarity memory.topic t).sum
      let avgSimilarity : ℚ :=
        if 0 < topics.length then totalSimilarity / (topics.length : ℚ) else 0
      if clusterSimilarityThreshold < avgSimilarity ∧ acc.2 < avgSimilarity then
        (some c.1, avgSimilarity)
      else acc)
    (none, 0)).1

/-- One memory of the `clusterMemories` pass: place an unassigned entry into
its best cluster (or start one named after it), then greedily pull its
unassigned connected topics into the same cluster. -/
def clusterStep (acc : List (String × List String) × List String)
    (memory : InterestNode) : List (String × List String) × List String :=
  let (clusters, assigned) := acc
  if memory.topic ∈ assigned then acc
  else
    let best := findBestCluster clusters memory
    let clusters := if best.isSome then clusters else setAssoc clusters memory.topic []
    let clusterName := best.getD memory.topic
    let clusters := setAssoc clusters clusterName
      ((alistLookup clusters clusterName).getD [] ++ [memory.topic])
    let assigned := assigned ++ [memory.topic]
    memory.connections.foldl
      (fun (p : List (String × List String) × List String) ct =>
        if ct ∈ p.2 then p
        else (setAssoc p.1 clusterName ((alistLookup p.1 clusterName).getD [] ++ [ct]),
              p.2 ++ [ct]))
      (clusters, assigned)

/-- `clusterMemories`: rebuild the clusters wholesale from the long-term store
in stored order. -/
def clusterMemories (ltm : List InterestNode) : List (String × List String) :=
  (ltm.foldl clusterStep ([], [])).1

structure ForgottenEntry where
  topic : String
  weight : ℚ
deriving DecidableEq, Repr

structure PromotedEntry where
  topic : String
  score : PromotionScore

/-- The `results` record of `consolidate`. -/
structure ConsolidateResult where
  promoted : List PromotedEntry
  forgotten : List ForgottenEntry
  clustered : List String
  timestamp : ℤ

/-- The per-interest body of the `consolidate` scan: promote when the score
reaches the threshold, report as forgotten when the weight is below 0.1, and
otherwise leave the accumulator alone. -/
noncomputable def consolidateStep (now : ℤ)
    (acc : BrainState × List InterestNode × List PromotedEntry × List ForgottenEntry)
    (interest : InterestNode) :
    BrainState × List InterestNode × List PromotedEntry × List ForgottenEntry :=
  if promotionThreshold ≤ (scoreForPromotion now interest).total then
    ((promoteToLongTerm now acc.1 acc.2.1 interest).1,
     (promoteToLongTerm now acc.1 acc.2.1 interest).2,
     acc.2.2.1 ++ [⟨interest.topic, scoreForPromotion now interest⟩],
     acc.2.2.2)
  else if interest.weight < 1 / 10 then
    (acc.1, acc.2.1, acc.2.2.1, acc.2.2.2 ++ [⟨interest.topic, interest.weight⟩])
  else acc

/-- The scan of `consolidate` over the short-term interests. -/
noncomputable def consolidateFold (now : ℤ) (brain : BrainState)
    (ltm : List InterestNode) :
    BrainState × List InterestNode × List PromotedEntry × List ForgottenEntry :=
  ((brain.interests.map Prod.snd).filter
    (fun n => n.memoryType = .shortTerm)).foldl
    (consolidateStep now) (brain, ltm, [], [])

/-- `consolidate`: promote qualifying short-term nodes, report (without
removing) the too-weak ones, then rebuild the clusters. -/
noncomputable def consolidate (now : ℤ) (brain : BrainState)
    (ltm : List InterestNode) :
    BrainState × List InterestNode × List (String × List String) × ConsolidateResult :=
  ((consolidateFold now brain ltm).1,
   (consolidateFold now brain ltm).2.1,
   clusterMemories (consolidateFold now brain ltm).2.1,
   ⟨(consolidateFold now brain ltm).2.2.1,
    (consolidateFold now brain ltm).2.2.2,
    (clusterMemories (consolidateFold now brain ltm).2.1).map Prod.fst, now⟩)

/-! ### DreamReplaySystem (dreamer.js) -/

def replayChainLength : ℕ := 5
def chainsPerDream : ℕ := 10
/-- The dreamer's own `connectionThreshold` (0.15, more lenient than the
engine's 0.2). -/
def dreamConnectionThreshold : ℚ := 3 / 20
def serendipityBoost : ℚ := 3 / 10

/-- The randomness source: an explicit stream of `Math.random()` draws. -/
abbrev Rng := ℕ → ℚ

/-- `Math.floor(q * n)` used to index an array of length `n`. -/
def randIndex (q : ℚ) (n : ℕ) : ℕ := (⌊q * (n : ℚ)⌋).toNat

/-- A discovery of the explorer, as read by `calculateDreamSimilarity`
(`id`, `keywords`, `searchTopic` are the only fields consulted). -/
structure Discovery where
  id : ℕ
  keywords : List String
  searchTopic : String
deriving DecidableEq, Repr

/-- `calculateDreamSimilarity`: keyword Jaccard (0.4) + shared-connection
ratio (0.3) + discovery co-occurrence of 0 or 0.3 (0.2) + one uniform draw
(0.1).  `discoveries = none` models a missing `window.explorer`.  The
`interest.keywords || extractKeywords(...)` fallback of the source only fires
for nodes without a `keywords` field, which never occurs for nodes created by
the engine, so it is not modelled. -/
def calculateDreamSimilarity (discoveries : Option (List Discovery))
    (interestA interestB : InterestNode) (rand : ℚ) : ℚ :=
  let keywordsA := interestA.keywords.toFinset
  let keywordsB := interestB.keywords.toFinset
  let keywordSimilarity : ℚ :=
    if 0 < keywordsA.card ∧ 0 < keywordsB.card then
      ((keywordsA ∩ keywordsB).card : ℚ) / ((keywordsA ∪ keywordsB).card : ℚ)
    else 0
  let connectionsA := interestA.connections.toFinset
  let connectionsB := interestB.connections.toFinset
  let sharedConnections := (connectionsA ∩ connectionsB).card
  let connectionSimilarity : ℚ :=
    (sharedConnections : ℚ) / ((max 1 (min connectionsA.card connectionsB.card) : ℕ) : ℚ)
  let discoveryCooccurrence : ℚ :=
    match discoveries with
    | none => 0
    | some ds =>
      let topicAIn := (ds.filter fun d =>
        toLower interestA.topic ∈ d.keywords ∨ d.searchTopic = interestA.topic).map Discovery.id
      let topicBIn := (ds.filter fun d =>
        toLower interestB.topic ∈ d.keywords ∨ d.searchTopic = interestB.topic).map Discovery.id
      let sharedDiscoveries := (topicAIn.filter fun i => i ∈ topicBIn).length
      if 0 < sharedDiscoveries then 3 / 10 else 0
  keywordSimilarity * (4 / 10) + connectionSimilarity * (3 / 10) +
    discoveryCooccurrence * (2 / 10) + rand * (1 / 10)

/-- The connections of a topic as currently stored in the brain (reading the
live node object the chain holds a reference to). -/
def topicConnections (brain : BrainState) (topic : String) : List String :=
  match alistLookup brain.interests topic with
  | some n => n.connections
  | none => []

/-- The steps after the start node of `generateMemoryChain`: with probability
0.6 follow an unused connection when one exists, otherwise jump to a uniformly
random unused interest; stop when no candidate remains.  Chains are lists of
topics (the node objects are read back from the brain where needed). -/
def chainStep (brain : BrainState) (allTopics : List String) (r : Rng) :
    ℕ → List String → String → ℕ → List String × ℕ
  | 0, chain, _, k => (chain, k)
  | steps + 1, chain, currentTopic, k =>
    let c := r k
    let k := k + 1
    let (next?, k) :=
      if c < 3 / 5 ∧ 0 < (topicConnections brain currentTopic).length then
        let available := (topicConnections brain currentTopic).filter
          fun t => t ∉ chain
        if 0 < available.length then
          let nextTopic := available.getD (randIndex (r k) available.length) ""
          ((alistLookup brain.interests nextTopic).map InterestNode.topic, k + 1)
        else (none, k)
      else (none, k)
    let (next?, k) :=
      match next? with
      | some t => (some t, k)
      | none =>
        let available := allTopics.filter fun t => t ∉ chain
        if 0 < available.length then
          (available.get? (randIndex (r k) available.length), k + 1)
        else (none, k)
    match next? with
    | some next => chainStep brain allTopics r steps (chain ++ [next]) next k
    | none => (chain, k)

/-- `generateMemoryChain`: a random start node followed by
`replayChainLength − 1` chain steps.  The `used` set of the source is exactly
the set of topics already in the chain. -/
def generateMemoryChain (brain : BrainState) (allTopics : List String)
    (r : Rng) (k : ℕ) : List String × ℕ :=
  match allTopics.get? (randIndex (r k) allTopics.length) with
  | none => ([], k + 1)
  | some start => chainStep brain allTopics r (replayChainLength - 1) [start] start (k + 1)

/-- A candidate dream connection. -/
structure DreamConn where
  fromTopic : String
  toTopic : String
  similarity : ℚ
  distance : ℕ
  discoveredAt : ℤ
deriving DecidableEq, Repr

/-- `analyzeChainForConnections`: scan every non-adjacent index pair
`(i, j)` with `j ≥ i + 2` and keep the pairs whose dream similarity reaches
the dreamer's `connectionThreshold`.  One random draw is consumed per pair. -/
def analyzeChainForConnections (discoveries : Option (List Discovery))
    (now : ℤ) (brain : BrainState) (chain : List String) (r : Rng) (k : ℕ) :
    List DreamConn × ℕ :=
  (List.range (chain.length - 2)).foldl
    (fun (acc : List DreamConn × ℕ) i =>
      (List.range' (i + 2) (chain.length - (i + 2))).foldl
        (fun (acc : List DreamConn × ℕ) j =>
          match chain.get? i, chain.get? j with
          | some ta, some tb =>
            match alistLookup brain.interests ta, alistLookup brain.interests tb with
            | some a, some b =>
              let similarity := calculateDreamSimilarity discoveries a b (r acc.2)
              if dreamConnectionThreshold ≤ similarity then
                (acc.1 ++ [⟨a.topic, b.topic, similarity, j - i, now⟩], acc.2 + 1)
              else (acc.1, acc.2 + 1)
            | _, _ => acc
          | _, _ => acc)
        acc)
    ([], k)

/-- `isNewConnection`. -/
def isNewConnection (brain : BrainState) (topicA topicB : String) : Bool :=
  match alistLookup brain.interests topicA with
  | none => true
  | some interest => topicB ∉ interest.connections

/-- `createDreamConnection`: symmetric link, serendipity boost on both
endpoints, dream tag on the first, and a global discovered-connection entry. -/
def createDreamConnection (now : ℤ) (brain : BrainState)
    (discovered : List (String × String × ℚ × ℤ)) (topicA topicB : String)
    (similarity : ℚ) : BrainState × List (String × String × ℚ × ℤ) :=
  match alistLookup brain.interests topicA, alistLookup brain.interests topicB with
  | some _, some _ =>
    let m := updateEntry brain.interests topicA fun n =>
      if topicB ∈ n.connections then n
      else { n with connections := n.connections ++ [topicB] }
    let m := updateEntry m topicB fun n =>
      if topicA ∈ n.connections then n
      else { n with connections := n.connections ++ [topicA] }
    let m := updateEntry m topicA fun n =>
      { n with weight := min (n.weight + serendipityBoost * (1 / 2)) 1 }
    let m := updateEntry m topicB fun n =>
      { n with weight := min (n.weight + serendipityBoost * (1 / 2)) 1 }
    let m := updateEntry m topicA fun n =>
      { n with dreamConnections := n.dreamConnections ++ [(topicB, now)] }
    ({ brain with interests := m }, discovered ++ [(topicA, topicB, similarity, now)])
  | _, _ => (brain, discovered)

/-- `strengthenConnection`: a flat +0.05 (capped at 1) on both endpoints. -/
def strengthenConnection (brain : BrainState) (topicA topicB : String) :
    BrainState :=
  match alistLookup brain.interests topicA, alistLookup brain.interests topicB with
  | some _, some _ =>
    let m := updateEntry brain.interests topicA fun n =>
      { n with weight := min (n.weight + 1 / 20) 1 }
    let m := updateEntry m topicB fun n =>
      { n with weight := min (n.weight + 1 / 20) 1 }
    { brain with interests := m }
  | _, _ => brain

/-- A dream insight: a recurring theme or a chain-midpoint bridge. -/
inductive Insight
  | theme (topic : String) (frequency : ℕ)
  | bridge (fromTopic toTopic bridgeTopic : String)
deriving DecidableEq, Repr

/-- Topic frequency across chains, in first-encounter order (a JS `Map`). -/
def topicFrequency (chains : List (List String)) : List (String × ℕ) :=
  chains.foldl
    (fun acc chain =>
      chain.foldl
        (fun (acc : List (String × ℕ)) t =>
          match alistLookup acc t with
          | some c => setAssoc acc t (c + 1)
          | none => acc ++ [(t, 1)])
        acc)
    []

/-- `generateInsights`: themes (topics in ≥ 2 chains) followed by bridges
(midpoints of chains of length ≥ 4), capped at 5 entries. -/
def generateInsights (chains : List (List String)) : List Insight :=
  let themes := ((topicFrequency chains).filter fun p => 2 ≤ p.2).map
    fun p => Insight.theme p.1 p.2
  let bridges := chains.foldl
    (fun (acc : List Insight) chain =>
      if 4 ≤ chain.length then
        match chain.get? 0, chain.get? (chain.length - 1),
            chain.get? (chain.length / 2) with
        | some first, some last, some bridge =>
          acc ++ [Insight.bridge first last bridge]
        | _, _, _ => acc
      else acc)
    []
  (themes ++ bridges).take 5

/-- A recorded dream session. -/
structure DreamSession where
  startTime : ℤ
  chains : List (List String)
  newConnections : List DreamConn
  strengthenedConnections : List DreamConn
  insights : List Insight
  endTime : ℤ
  duration : ℤ
deriving DecidableEq, Repr

/-- The state owned by the DreamReplaySystem singleton. -/
structure DreamerState where
  dreamLog : List DreamSession
  discoveredConnections : List (String × String × ℚ × ℤ)
  isDreaming : Bool
deriving DecidableEq, Repr

/-- The result of `dream()`. -/
structure DreamResult where
  success : Bool
  reason : Option String
  session : Option DreamSession
deriving DecidableEq, Repr

/-- The chain loop of `dream()`: generate a chain, analyze it, then create or
strengthen each candidate connection in order. -/
def dreamLoop (discoveries : Option (List Discovery)) (now : ℤ)
    (allTopics : List String) (r : Rng) :
    ℕ → BrainState → List (String × String × ℚ × ℤ) → DreamSession → ℕ →
    BrainState × List (String × String × ℚ × ℤ) × DreamSession × ℕ
  | 0, brain, dcs, session, k => (brain, dcs, session, k)
  | iters + 1, brain, dcs, session, k =>
    let (chain, k) := generateMemoryChain brain allTopics r k
    let session := { session with chains := session.chains ++ [chain] }
    let (conns, k) := analyzeChainForConnections discoveries now brain chain r k
    let (brain, dcs, session) := conns.foldl
      (fun (acc : BrainState × List (String × String × ℚ × ℤ) × DreamSession) conn =>
        let (brain, dcs, session) := acc
        if isNewConnection brain conn.fromTopic conn.toTopic then
          let (brain, dcs) := createDreamConnection now brain dcs
            conn.fromTopic conn.toTopic conn.similarity
          (brain, dcs,
           { session with newConnections := session.newConnections ++ [conn] })
        else
          (strengthenConnection brain conn.fromTopic conn.toTopic, dcs,
           { session with strengthenedConnections :=
               session.strengthenedConnections ++ [conn] }))
      (brain, dcs, session)
    dreamLoop discoveries now allTopics r iters brain dcs session k

/-- `dream()`: fail fast while a session is active or without a brain, fail
with a structured result below 3 interests, otherwise run `chainsPerDream`
chains and record the session. -/
def dream (discoveries : Option (List Discovery)) (now : ℤ) (r : Rng) (k : ℕ)
    (dreamer : DreamerState) (brain? : Option BrainState) :
    DreamerState × Option BrainState × DreamResult × ℕ :=
  if dreamer.isDreaming || brain?.isNone then
    (dreamer, brain?,
     ⟨false, some "Already dreaming or brain not initialized", none⟩, k)
  else
    match brain? with
    | none =>
      (dreamer, brain?,
       ⟨false, some "Already dreaming or brain not initialized", none⟩, k)
    | some brain =>
      let dreamer := { dreamer with isDreaming := true }
      if brain.interests.length < 3 then
        ({ dreamer with isDreaming := false }, some brain,
         ⟨false, some "Need at least 3 interests to dream", none⟩, k)
      else
        let session0 : DreamSession := ⟨now, [], [], [], [], 0, 0⟩
        let allTopics := (brain.interests.map Prod.snd).map InterestNode.topic
        let (brain, dcs, session, k) := dreamLoop discoveries now allTopics r
          chainsPerDream brain dreamer.discoveredConnections session0 k
        let session := { session with
          insights := generateInsights session.chains
          endTime := now
          duration := now - session.startTime }
        (⟨dreamer.dreamLog ++ [session], dcs, false⟩, some brain,
         ⟨true, none, some session⟩, k)

/-! ### GeneticEvolution (genetics.js) -/

def populationSize : ℕ := 10
def mutationRate : ℚ := 3 / 20
def crossoverRate : ℚ := 7 / 10
def elitismCount : ℕ := 2
def fitnessDecay : ℚ := 19 / 20

/-- The nested `apiPreferences` gene map. -/
structure ApiPreferences where
  wikipedia : ℚ
  hackerNews : ℚ
  reddit : ℚ
  openLibrary : ℚ
deriving DecidableEq, Repr

/-- The `genes` object, fields in the source's insertion (= iteration)
order. -/
structure Genes where
  explorationBias : ℚ
  breadthPreference : ℚ
  recencyWeight : ℚ
  connectionAffinity : ℚ
  noveltySeeking : ℚ
  apiPreferences : ApiPreferences
  timePreference : ℚ
  riskTolerance : ℚ
  memoryInfluence : ℚ
  serendipityFactor : ℚ
deriving DecidableEq, Repr

/-- A strategy genome.  `id` abstracts the `strat_<time>_<random>` string as
the raw random draw that produced it. -/
structure Strategy where
  id : ℚ
  generation : ℕ
  createdAt : ℤ
  fitness : ℚ
  explorations : ℕ
  discoveries : ℕ
  genes : Genes
deriving DecidableEq, Repr

/-- `generateId`, abstracted to its one random draw. -/
def generateId (q : ℚ) : ℚ := q

/-- `createRandomStrategy`: one id draw followed by 13 uniform gene draws, in
field order. -/
def createRandomStrategy (now : ℤ) (generation : ℕ) (r : Rng) (k : ℕ) :
    Strategy × ℕ :=
  ({ id := generateId (r k)
     generation := generation
     createdAt := now
     fitness := 0
     explorations := 0
     discoveries := 0
     genes :=
       { explorationBias := r (k + 1)
         breadthPreference := r (k + 2)
         recencyWeight := r (k + 3)
         connectionAffinity := r (k + 4)
         noveltySeeking := r (k + 5)
         apiPreferences :=
           { wikipedia := r (k + 6)
             hackerNews := r (k + 7)
             reddit := r (k + 8)
             openLibrary := r (k + 9) }
         timePreference := r (k + 10)
         riskTolerance := r (k + 11)
         memoryInfluence := r (k + 12)
         serendipityFactor := r (k + 13) } }, k + 14)

/-- `Math.min(...fitnesses)` over a non-empty population (0 for the empty
one, which `evolve` never passes). -/
def minFitness : List Strategy → ℚ
  | [] => 0
  | s :: rest => rest.foldl (fun m t => min m t.fitness) s.fitness

/-- The roulette loop of `selectParent`: subtract each adjusted fitness until
the remainder is ≤ 0. -/
def rouletteLoop : List (Strategy × ℚ) → ℚ → Option Strategy
  | [], _ => none
  | (s, f) :: rest, rem =>
    if rem - f ≤ 0 then some s else rouletteLoop rest (rem - f)

/-- The `adjusted` list of `selectParent`: fitnesses shifted so the minimum
becomes 1. -/
def adjustedFitness (pop : List Strategy) : List (Strategy × ℚ) :=
  pop.map fun s => (s, s.fitness - minFitness pop + 1)

/-- `selectParent`: fitness-proportionate selection over the shifted
fitnesses, falling back to the head of the population.  Consumes the single
draw `q`. -/
def selectParent (pop : List Strategy) (q : ℚ) : Option Strategy :=
  (rouletteLoop (adjustedFitness pop)
    (q * ((adjustedFitness pop).map Prod.snd).sum)).orElse fun _ => pop.head?

/-- A placeholder for the `undefined` JS would produce on an empty
population; unreachable from `evolve`. -/
def dummyStrategy : Strategy :=
  { id := 0, generation := 0, createdAt := 0, fitness := 0, explorations := 0,
    discoveries := 0,
    genes :=
      { explorationBias := 0, breadthPreference := 0, recencyWeight := 0,
        connectionAffinity := 0, noveltySeeking := 0,
        apiPreferences := ⟨0, 0, 0, 0⟩,
        timePreference := 0, riskTolerance := 0, memoryInfluence := 0,
        serendipityFactor := 0 } }

def selectParentD (pop : List Strategy) (q : ℚ) : Strategy :=
  (selectParent pop q).getD dummyStrategy

/-- Uniform crossover's per-gene coin flip. -/
def pick (q a b : ℚ) : ℚ := if q < 1 / 2 then a else b

/-- `crossover`: build a fresh random strategy (consuming its 14 draws, so
the gene coin flips start at `k + 14`), then overwrite every gene —
`apiPreferences` entry-wise — from one parent or the other, one draw per gene
in iteration order. -/
def crossover (now : ℤ) (generation : ℕ) (parent1 parent2 : Strategy)
    (r : Rng) (k : ℕ) : Strategy × ℕ :=
  let g1 := parent1.genes
  let g2 := parent2.genes
  ({ (createRandomStrategy now generation r k).1 with genes :=
      { explorationBias := pick (r (k + 14)) g1.explorationBias g2.explorationBias
        breadthPreference := pick (r (k + 15)) g1.breadthPreference g2.breadthPreference
        recencyWeight := pick (r (k + 16)) g1.recencyWeight g2.recencyWeight
        connectionAffinity := pick (r (k + 17)) g1.connectionAffinity g2.connectionAffinity
        noveltySeeking := pick (r (k + 18)) g1.noveltySeeking g2.noveltySeeking
        apiPreferences :=
          { wikipedia := pick (r (k + 19)) g1.apiPreferences.wikipedia g2.apiPreferences.wikipedia
            hackerNews := pick (r (k + 20)) g1.apiPreferences.hackerNews g2.apiPreferences.hackerNews
            reddit := pick (r (k + 21)) g1.apiPreferences.reddit g2.apiPreferences.reddit
            openLibrary := pick (r (k + 22)) g1.apiPreferences.openLibrary g2.apiPreferences.openLibrary }
        timePreference := pick (r (k + 23)) g1.timePreference g2.timePreference
        riskTolerance := pick (r (k + 24)) g1.riskTolerance g2.riskTolerance
        memoryInfluence := pick (r (k + 25)) g1.memoryInfluence g2.memoryInfluence
        serendipityFactor := pick (r (k + 26)) g1.serendipityFactor g2.serendipityFactor } },
   k + 27)

/-- Clamp to `[0,1]` (`Math.max(0, Math.min(1, x))`). -/
def clamp01 (x : ℚ) : ℚ := max 0 (min 1 x)

/-- Mutation of one scalar gene: with probability `mutationRate`, add uniform
noise from `[−0.15, 0.15]` and clamp. -/
def mutateScalar (g : ℚ) (r : Rng) (k : ℕ) : ℚ × ℕ :=
  if r k < mutationRate then
    (clamp01 (g + (r (k + 1) - 1 / 2) * (3 / 10)), k + 2)
  else (g, k + 1)

/-- Mutation of one `apiPreferences` entry: with probability `mutationRate`,
replace it outright by a fresh uniform draw. -/
def mutateApi (p : ℚ) (r : Rng) (k : ℕ) : ℚ × ℕ :=
  if r k < mutationRate then (r (k + 1), k + 2) else (p, k + 1)

def mutateApiPrefs (a : ApiPreferences) (r : Rng) (k : ℕ) : ApiPreferences × ℕ :=
  let p1 := mutateApi a.wikipedia r k
  let p2 := mutateApi a.hackerNews r p1.2
  let p3 := mutateApi a.reddit r p2.2
  let p4 := mutateApi a.openLibrary r p3.2
  (⟨p1.1, p2.1, p3.1, p4.1⟩, p4.2)

/-- `mutate`: per gene in iteration order; the `apiPreferences` key first pays
its own `mutationRate` check, then mutates entry-wise. -/
def mutate (s : Strategy) (r : Rng) (k : ℕ) : Strategy × ℕ :=
  let p1 := mutateScalar s.genes.explorationBias r k
  let p2 := mutateScalar s.genes.breadthPreference r p1.2
  let p3 := mutateScalar s.genes.recencyWeight r p2.2
  let p4 := mutateScalar s.genes.connectionAffinity r p3.2
  let p5 := mutateScalar s.genes.noveltySeeking r p4.2
  let p6 :=
    if r p5.2 < mutationRate then mutateApiPrefs s.genes.apiPreferences r (p5.2 + 1)
    else (s.genes.apiPreferences, p5.2 + 1)
  let p7 := mutateScalar s.genes.timePreference r p6.2
  let p8 := mutateScalar s.genes.riskTolerance r p7.2
  let p9 := mutateScalar s.genes.memoryInfluence r p8.2
  let p10 := mutateScalar s.genes.serendipityFactor r p9.2
  ({ s with genes :=
      { explorationBias := p1.1, breadthPreference := p2.1, recencyWeight := p3.1,
        connectionAffinity := p4.1, noveltySeeking := p5.1, apiPreferences := p6.1,
        timePreference := p7.1, riskTolerance := p8.1, memoryInfluence := p9.1,
        serendipityFactor := p10.1 } }, p10.2)

/-- One `evolutionHistory` entry. -/
structure HistoryEntry where
  generation : ℕ
  timestamp : ℤ
  bestFitness : ℚ
  averageFitness : ℚ
  bestStrategy : ℚ
deriving DecidableEq, Repr

/-- The state owned by the GeneticEvolution singleton. -/
structure GeneticsState where
  population : List Strategy
  generation : ℕ
  evolutionHistory : List HistoryEntry
  bestStrategy : Option Strategy
deriving DecidableEq, Repr

/-- The fitness-descending, stable sort of `evolve` (`Array.sort` with
comparator `b.fitness - a.fitness`). -/
def sortByFitnessDesc (pop : List Strategy) : List Strategy :=
  List.insertionSort (fun a b => b.fitness ≤ a.fitness) pop

/-- One offspring of the fill loop: two parent selections (one draw each), a
crossover coin (one draw) with the crossover itself or a clone of the first
parent, mutation, and the stat reset with a fresh id (one draw). -/
def makeOffspring (now : ℤ) (curGen : ℕ) (pop : List Strategy) (r : Rng)
    (k : ℕ) : Strategy × ℕ :=
  let parent1 := selectParentD pop (r k)
  let parent2 := selectParentD pop (r (k + 1))
  let cross :=
    if r (k + 2) < crossoverRate then crossover now curGen parent1 parent2 r (k + 3)
    else (parent1, k + 3)
  let mutated := mutate cross.1 r cross.2
  ({ mutated.1 with
      id := generateId (r mutated.2)
      generation := curGen + 1
      fitness := 0
      explorations := 0
      discoveries := 0
      createdAt := now }, mutated.2 + 1)

/-- The `while (newPopulation.length < populationSize)` fill loop, as a
recursion on the number of missing genomes. -/
def fillOffspring (now : ℤ) (curGen : ℕ) (pop : List Strategy) (r : Rng) :
    ℕ → List Strategy → ℕ → List Strategy × ℕ
  | 0, acc, k => (acc, k)
  | need + 1, acc, k =>
    fillOffspring now curGen pop r need
      (acc ++ [(makeOffspring now curGen pop r k).1])
      (makeOffspring now curGen pop r k).2

/-- The record `evolve` returns on success. -/
structure EvolveResult where
  generation : ℕ
  population : List Strategy
  bestStrategy : Option Strategy
deriving DecidableEq, Repr

/-- The elitism copies: the top `elitismCount` of the sorted population,
deep-copied into the next generation (fitness and counters untouched). -/
def evolveElites (st : GeneticsState) : List Strategy :=
  ((sortByFitnessDesc st.population).take elitismCount).map
    fun s => { s with generation := st.generation + 1 }

/-- The offspring that fill the rest of the next generation. -/
def evolveOffspring (now : ℤ) (r : Rng) (k : ℕ) (st : GeneticsState) :
    List Strategy :=
  (fillOffspring now st.generation (sortByFitnessDesc st.population) r
    (populationSize - (evolveElites st).length) [] k).1

/-- The randomness cursor after the fill loop. -/
def evolveFinalK (now : ℤ) (r : Rng) (k : ℕ) (st : GeneticsState) : ℕ :=
  (fillOffspring now st.generation (sortByFitnessDesc st.population) r
    (populationSize - (evolveElites st).length) [] k).2

/-- The history entry `evolve` appends before replacing the population
(`this.population` is already sorted at that point). -/
def evolveHistoryEntry (now : ℤ) (st : GeneticsState) : HistoryEntry :=
  { generation := st.generation
    timestamp := now
    bestFitness := ((sortByFitnessDesc st.population).headD dummyStrategy).fitness
    averageFitness := ((sortByFitnessDesc st.population).map Strategy.fitness).sum /
      (((sortByFitnessDesc st.population).length : ℚ))
    bestStrategy := ((sortByFitnessDesc st.population).headD dummyStrategy).id }

/-- `evolve`: no-op below 2 genomes; otherwise sort by fitness, deep-copy the
top `elitismCount` into the next generation, fill the rest with offspring,
append the history entry, replace the population and bump the generation. -/
def evolve (now : ℤ) (r : Rng) (k : ℕ) (st : GeneticsState) :
    GeneticsState × Option EvolveResult × ℕ :=
  if st.population.length < 2 then (st, none, k)
  else
    (⟨evolveElites st ++ evolveOffspring now r k st,
      st.generation + 1,
      st.evolutionHistory ++ [evolveHistoryEntry now st],
      (evolveElites st ++ evolveOffspring now r k st).head?⟩,
     some ⟨st.generation + 1, evolveElites st ++ evolveOffspring now r k st,
       (evolveElites st ++ evolveOffspring now r k st).head?⟩,
     evolveFinalK now r k st)

/-! ### Per-node transition system of the interest graph

The operations of the CuriosityEngine and the MemoryConsolidator act on an
individual node as follows; every weight-touching engine operation ends in
`updateCoreStatus` (`addInterest` and `applyDecay` both call it last), which
is what the core-hysteresis claim is about. -/

/-- The other node of a link created by `findAndCreateConnections`: gains the
symmetric connection and the flat +0.05 association bump. -/
def assocBumpNode (other : String) (n : InterestNode) : InterestNode :=
  let n := if other ∈ n.connections then n
           else { n with connections := n.connections ++ [other] }
  { n with weight := min (n.weight + 1 / 20) maxWeight }

/-- How one engine / consolidator operation transforms a single node.  Each of
the weight-touching engine operations is followed by the per-node
`updateCoreStatus` body before the operation returns. -/
inductive NodeStep : InterestNode → InterestNode → Prop
  | reinforceSelf (now : ℤ) (strength : ℚ) (n : InterestNode) :
      NodeStep n (updateCoreNode (reinforceSelfNode now strength n))
  | reinforceNeighbor (now : ℤ) (strength : ℚ) (n : InterestNode) :
      NodeStep n (updateCoreNode (reinforceNeighborNode now strength n))
  | assocConn (other : String) (n : InterestNode) :
      NodeStep n (updateCoreNode (assocBumpNode other n))
  | decay (now : ℤ) (n : InterestNode) :
      NodeStep n (updateCoreNode (decayNode now n))
  | idle (n : InterestNode) : NodeStep n (updateCoreNode n)
  | promote (now : ℤ) (n : InterestNode) :
      n.memoryType = .shortTerm →
      NodeStep n { n with memoryType := .longTerm, promotedAt := some now }

/-- Node states reachable from a freshly created interest node by the
operations above. -/
inductive ReachableNode : InterestNode → Prop
  | init (now : ℤ) (topic : String) : ReachableNode (createInterestNode now topic)
  | step {n n' : InterestNode} :
      ReachableNode n → NodeStep n n' → ReachableNode n'

/-! ### Association-list lemmas -/

theorem alistLookup_mapValues {α : Type} (f : α → α) (m : List (String × α))
    (t : String) : alistLookup (mapValues f m) t = (alistLookup m t).map f := by
  induction m with
  | nil => rfl
  | cons p rest ih =>
    simp only [mapValues, List.map_cons, alistLookup]
    split <;> simp_all [mapValues]

theorem mem_of_alistLookup {α : Type} {m : List (String × α)} {t : String}
    {v : α} (h : alistLookup m t = some v) : (t, v) ∈ m := by
  induction m with
  | nil => simp [alistLookup] at h
  | cons p rest ih =>
    simp only [alistLookup] at h
    split at h
    · rename_i he
      obtain ⟨rfl⟩ := Option.some.inj h
      simp [← he]
    · exact List.mem_cons_of_mem _ (ih h)

theorem updateEntry_cons_self {α : Type} (a : String) (v : α)
    (rest : List (String × α)) (f : α → α) :
    updateEntry ((a, v) :: rest) a f = (a, f v) :: updateEntry rest a f := by
  simp [updateEntry]

theorem updateEntry_cons_ne {α : Type} {a t : String} (h : a ≠ t) (v : α)
    (rest : List (String × α)) (f : α → α) :
    updateEntry ((a, v) :: rest) t f = (a, v) :: updateEntry rest t f := by
  simp [updateEntry, h]

theorem alistLookup_updateEntry_self {α : Type} (m : List (String × α))
    (t : String) (f : α → α) :
    alistLookup (updateEntry m t f) t = (alistLookup m t).map f := by
  induction m with
  | nil => rfl
  | cons p rest ih =>
    obtain ⟨a, v⟩ := p
    by_cases h : a = t
    · subst h
      rw [updateEntry_cons_self]
      simp [alistLookup]
    · rw [updateEntry_cons_ne h]
      simp [alistLookup, h, ih]

theorem alistLookup_updateEntry_ne {α : Type} (m : List (String × α))
    {t u : String} (f : α → α) (h : u ≠ t) :
    alistLookup (updateEntry m t f) u = alistLookup m u := by
  induction m with
  | nil => rfl
  | cons p rest ih =>
    obtain ⟨a, v⟩ := p
    by_cases hat : a = t
    · subst hat
      rw [updateEntry_cons_self]
      have hau : a ≠ u := fun he => h he.symm
      simp [alistLookup, hau, ih]
    · rw [updateEntry_cons_ne hat]
      by_cases hau : a = u <;> simp [alistLookup, hau, ih]

theorem keys_updateEntry {α : Type} (m : List (String × α)) (t : String)
    (f : α → α) : (updateEntry m t f).map Prod.fst = m.map Prod.fst := by
  induction m with
  | nil => rfl
  | cons p rest ih =>
    simp only [updateEntry, List.map_cons] at *
    split <;> simp_all

theorem keys_mapValues {α : Type} (f : α → α) (m : List (String × α)) :
    (mapValues f m).map Prod.fst = m.map Prod.fst := by
  induction m with
  | nil => rfl
  | cons p rest ih => simp_all [mapValues]

theorem alistLookup_isSome_iff {α : Type} (m : List (String × α)) (t : String) :
    (alistLookup m t).isSome ↔ t ∈ m.map Prod.fst := by
  induction m with
  | nil => simp [alistLookup]
  | cons p rest ih =>
    obtain ⟨a, v⟩ := p
    by_cases h : a = t
    · subst h
      simp [alistLookup]
    · have h' : ¬t = a := fun he => h he.symm
      simp [alistLookup, h, h', ih]

/-! ### C7: similarity is symmetric, bounded, reflexive-on-nonempty -/

/-- `calculateSimilarity` with its `let` bindings unfolded. -/
theorem calculateSimilarity_def (a b : String) :
    calculateSimilarity a b =
      if (extractKeywords a).toFinset.card = 0 ∨ (extractKeywords b).toFinset.card = 0
      then 0
      else (((extractKeywords a).toFinset ∩ (extractKeywords b).toFinset).card : ℚ) /
        (((extractKeywords a).toFinset ∪ (extractKeywords b).toFinset).card : ℚ) := rfl

/-- **C7.**  For all topics `a` and `b`: `similarity(a,b) = similarity(b,a)`,
the value lies in `[0,1]`, `similarity(a,a) = 1` whenever `a`'s keyword set is
non-empty, and the result is 0 whenever either keyword set is empty.  Purity
holds by construction: `calculateSimilarity` is a Lean function of the two
topic strings alone and touches no state. -/
theorem calculateSimilarity_symm_bounded (a b : String) :
    calculateSimilarity a b = calculateSimilarity b a ∧
    0 ≤ calculateSimilarity a b ∧ calculateSimilarity a b ≤ 1 ∧
    ((extractKeywords a).toFinset ≠ ∅ → calculateSimilarity a a = 1) ∧
    ((extractKeywords a).toFinset = ∅ ∨ (extractKeywords b).toFinset = ∅ →
      calculateSimilarity a b = 0) := by
  refine ⟨?_, ?_, ?_, ?_, ?_⟩
  · rw [calculateSimilarity_def, calculateSimilarity_def]
    rw [Finset.inter_comm, Finset.union_comm]
    by_cases h1 : (extractKeywords a).toFinset.card = 0 <;>
      by_cases h2 : (extractKeywords b).toFinset.card = 0 <;>
      simp [h1, h2]
  · rw [calculateSimilarity_def]
    split
    · norm_num
    · positivity
  · rw [calculateSimilarity_def]
    split
    · norm_num
    · rename_i h
      push_neg at h
      refine div_le_one_of_le₀ ?_ (by positivity)
      exact_mod_cast Finset.card_le_card Finset.inter_subset_union
  · intro h
    have hc : (extractKeywords a).toFinset.card ≠ 0 := by
      simpa [Finset.card_eq_zero] using h
    rw [calculateSimilarity_def]
    rw [if_neg (by simp [hc])]
    rw [Finset.inter_self, Finset.union_self]
    exact div_self (by exact_mod_cast hc)
  · intro h
    have hc : (extractKeywords a).toFinset.card = 0 ∨
        (extractKeywords b).toFinset.card = 0 := by
      rcases h with h | h <;> simp [h]
    rw [calculateSimilarity_def]
    rw [if_pos hc]

/-- Witness for C7 at concrete topics: "machine learning" has a non-empty
keyword set and similarity 1 with itself; "the" has an empty keyword set and
similarity 0 with anything. -/
theorem calculateSimilarity_symm_bounded_witness :
    ((extractKeywords "machine learning").toFinset ≠ ∅ ∧
      calculateSimilarity "machine learning" "machine learning" = 1) ∧
    ((extractKeywords "the").toFinset = ∅ ∧
      calculateSimilarity "machine learning" "the" = 0) :=
  ⟨⟨by decide,
    (calculateSimilarity_symm_bounded "machine learning" "machine learning").2.2.2.1
      (by decide)⟩,
   ⟨by decide,
    (calculateSimilarity_symm_bounded "machine learning" "the").2.2.2.2
      (Or.inr (by decide))⟩⟩

/-! ### C9: the promotion-score formula -/

/-- Modelled from the spec: the promotion score as the claim phrases it,
`0.30·min(weight/maxWeight,1) + 0.30·min(|connections|/10,1) +
0.20·min(log(accessCount+1)/log 51, 1) + 0.20·max(1 − age/7days, 0)`. -/
noncomputable def promotionScoreSpec (now : ℤ) (n : InterestNode) : ℝ :=
  0.30 * min ((n.weight : ℝ) / (maxWeight : ℝ)) 1 +
  0.30 * min ((n.connections.length : ℝ) / 10) 1 +
  0.20 * min (Real.log ((n.accessCount : ℝ) + 1) / Real.log 51) 1 +
  0.20 * max (1 - ((now - n.lastActive : ℤ) : ℝ) / (7 * 24 * 60 * 60 * 1000)) 0

/-- **C9.**  For every node, `scoreForPromotion`'s total equals the claim's
four-term weighted formula. -/
theorem scoreForPromotion_total_eq (now : ℤ) (n : InterestNode) :
    (scoreForPromotion now n).total = promotionScoreSpec now n := by
  unfold scoreForPromotion promotionScoreSpec maxWeight
  norm_num
  ring

/-! ### C2: the dream-similarity formula -/

/-- Spec-modelled: the claim's `keywordJaccard` term (with the `ℚ` convention
`x / 0 = 0`, which agrees with the source's explicit empty-set guard). -/
def keywordJaccard (a b : InterestNode) : ℚ :=
  ((a.keywords.toFinset ∩ b.keywords.toFinset).card : ℚ) /
    ((a.keywords.toFinset ∪ b.keywords.toFinset).card : ℚ)

/-- Spec-modelled: the claim's shared-connection ratio, with the denominator
`min(|connections(a)|, |connections(b)|, 1)` exactly as the claim states. -/
def claimSharedConnectionRatio (a b : InterestNode) : ℚ :=
  ((a.connections.toFinset ∩ b.connections.toFinset).card : ℚ) /
    ((min (min a.connections.toFinset.card b.connections.toFinset.card) 1 : ℕ) : ℚ)

/-- The shared-connection ratio the code computes: the denominator is
`max(1, min(|connections(a)|, |connections(b)|))`. -/
def sharedConnectionRatio (a b : InterestNode) : ℚ :=
  ((a.connections.toFinset ∩ b.connections.toFinset).card : ℚ) /
    ((max 1 (min a.connections.toFinset.card b.connections.toFinset.card) : ℕ) : ℚ)

/-- The discovery co-occurrence term: 0.3 when some discovery mentions both
topics, else 0. -/
def discoveryCooccurrenceBonus (discoveries : Option (List Discovery))
    (a b : InterestNode) : ℚ :=
  match discoveries with
  | none => 0
  | some ds =>
    let topicAIn := (ds.filter fun d =>
      toLower a.topic ∈ d.keywords ∨ d.searchTopic = a.topic).map Discovery.id
    let topicBIn := (ds.filter fun d =>
      toLower b.topic ∈ d.keywords ∨ d.searchTopic = b.topic).map Discovery.id
    if 0 < (topicAIn.filter fun i => i ∈ topicBIn).length then 3 / 10 else 0

/-- Concrete pair refuting C2's denominator: empty keyword sets, connection
sets `{x, y}` and `{x, z}`. -/
def dreamCexA : InterestNode :=
  { topic := "aa", weight := 1 / 2, connections := ["x", "y"], lastActive := 0,
    createdAt := 0, accessCount := 1, isCore := false, memoryType := .shortTerm,
    keywords := [] }

def dreamCexB : InterestNode :=
  { dreamCexA with topic := "bb", connections := ["x", "z"] }

/-- `calculateDreamSimilarity` with its `let` bindings unfolded. -/
theorem calculateDreamSimilarity_def (ds : Option (List Discovery))
    (a b : InterestNode) (rand : ℚ) :
    calculateDreamSimilarity ds a b rand =
      (if 0 < a.keywords.toFinset.card ∧ 0 < b.keywords.toFinset.card then
        ((a.keywords.toFinset ∩ b.keywords.toFinset).card : ℚ) /
          ((a.keywords.toFinset ∪ b.keywords.toFinset).card : ℚ)
      else 0) * (4 / 10) +
      ((a.connections.toFinset ∩ b.connections.toFinset).card : ℚ) /
        ((max 1 (min a.connections.toFinset.card b.connections.toFinset.card) : ℕ) : ℚ) *
        (3 / 10) +
      discoveryCooccurrenceBonus ds a b * (2 / 10) + rand * (1 / 10) := rfl

/-- **C2, counterexample.**  At connection sets `{x,y}` and `{x,z}` (shared 1,
sizes 2 and 2) the code yields `0.3 × 1/2 = 0.15` for the connection term,
while the claim's `min(|A|,|B|,1) = 1` denominator would yield `0.3 × 1 = 0.3`.
-/
theorem calculateDreamSimilarity_claim_cex :
    calculateDreamSimilarity none dreamCexA dreamCexB 0 ≠
      4 / 10 * keywordJaccard dreamCexA dreamCexB +
      3 / 10 * claimSharedConnectionRatio dreamCexA dreamCexB +
      2 / 10 * discoveryCooccurrenceBonus none dreamCexA dreamCexB +
      1 / 10 * 0 := by
  rw [calculateDreamSimilarity_def]
  unfold keywordJaccard claimSharedConnectionRatio
  have hKA : dreamCexA.keywords.toFinset.card = 0 := by decide
  have hKi : (dreamCexA.keywords.toFinset ∩ dreamCexB.keywords.toFinset).card = 0 := by
    decide
  have hCi : (dreamCexA.connections.toFinset ∩ dreamCexB.connections.toFinset).card = 1 := by
    decide
  have hKu : (dreamCexA.keywords.toFinset ∪ dreamCexB.keywords.toFinset).card = 0 := by
    decide
  have hCA : dreamCexA.connections.toFinset.card = 2 := by decide
  have hCB : dreamCexB.connections.toFinset.card = 2 := by decide
  rw [if_neg (by simp [hKA]), hKi, hKu, hCi, hCA, hCB]
  rw [show discoveryCooccurrenceBonus none dreamCexA dreamCexB = 0 from rfl]
  push_cast
  norm_num

/-- **C2, amended.**  The dream similarity of every analyzed pair equals
`0.4×keywordJaccard + 0.3×sharedConnectionRatio + 0.2×bonus + 0.1×rand`,
where the shared-connection ratio divides by `max(1, min(|A|,|B|))` (not the
claim's `min(|A|,|B|,1)`), and the bonus is either 0 or 0.3. -/
theorem calculateDreamSimilarity_formula (ds : Option (List Discovery))
    (a b : InterestNode) (rand : ℚ) :
    calculateDreamSimilarity ds a b rand =
      4 / 10 * keywordJaccard a b + 3 / 10 * sharedConnectionRatio a b +
      2 / 10 * discoveryCooccurrenceBonus ds a b + 1 / 10 * rand ∧
    (discoveryCooccurrenceBonus ds a b = 0 ∨
      discoveryCooccurrenceBonus ds a b = 3 / 10) := by
  constructor
  · rw [calculateDreamSimilarity_def]
    unfold keywordJaccard sharedConnectionRatio
    by_cases h : 0 < a.keywords.toFinset.card ∧ 0 < b.keywords.toFinset.card
    · rw [if_pos h]
      ring
    · rw [if_neg h]
      have hz : ((a.keywords.toFinset ∩ b.keywords.toFinset).card : ℚ) = 0 := by
        push_neg at h
        rcases Nat.eq_zero_or_pos a.keywords.toFinset.card with ha | ha
        · have : a.keywords.toFinset = ∅ := Finset.card_eq_zero.mp ha
          simp [this]
        · have : b.keywords.toFinset = ∅ := Finset.card_eq_zero.mp
            (Nat.le_zero.mp (h ha))
          simp [this]
      rw [hz, zero_div]
      ring
  · unfold discoveryCooccurrenceBonus
    cases ds with
    | none => exact Or.inl rfl
    | some l =>
      simp only
      split
      · exact Or.inr rfl
      · exact Or.inl rfl

/-! ### C4: dream() precondition failures -/

/-- **C4.**  `dream()` fails with a structured result — not an exception —
both when a session is already active (or no brain exists) and when fewer
than 3 interests exist, and in each failure case the dreamer state (dream log
included) and the interest graph are returned unchanged. -/
theorem dream_precondition_failures (ds : Option (List Discovery)) (now : ℤ)
    (r : Rng) (k : ℕ) (dreamer : DreamerState) (brain? : Option BrainState) :
    (dreamer.isDreaming = true →
      dream ds now r k dreamer brain? =
        (dreamer, brain?,
         ⟨false, some "Already dreaming or brain not initialized", none⟩, k)) ∧
    (brain? = none →
      dream ds now r k dreamer brain? =
        (dreamer, brain?,
         ⟨false, some "Already dreaming or brain not initialized", none⟩, k)) ∧
    (∀ brain, dreamer.isDreaming = false → brain? = some brain →
      brain.interests.length < 3 →
      dream ds now r k dreamer brain? =
        (dreamer, some brain,
         ⟨false, some "Need at least 3 interests to dream", none⟩, k)) := by
  refine ⟨?_, ?_, ?_⟩
  · intro h
    unfold dream
    rw [if_pos (by simp [h])]
  · intro h
    unfold dream
    subst h
    rw [if_pos (by simp)]
  · intro brain hnot hsome hlt
    subst hsome
    obtain ⟨log, dcs, flag⟩ := dreamer
    simp only [DreamerState.isDreaming] at hnot
    subst hnot
    unfold dream
    simp [hlt]

/-- Witness for C4 at a concrete two-interest brain and an idle dreamer. -/
def dreamWitBrain : BrainState :=
  { interests := [("aa", dreamCexA), ("bb", dreamCexB)], connections := [] }

def dreamWitDreamer : DreamerState :=
  { dreamLog := [], discoveredConnections := [], isDreaming := false }

theorem dream_precondition_failures_witness :
    dream none 0 (fun _ => 0) 0 dreamWitDreamer (some dreamWitBrain) =
      (dreamWitDreamer, some dreamWitBrain,
       ⟨false, some "Need at least 3 interests to dream", none⟩, 0) :=
  (dream_precondition_failures none 0 (fun _ => 0) 0 dreamWitDreamer
    (some dreamWitBrain)).2.2 dreamWitBrain rfl rfl (by decide)

/-! ### C5: decay monotonicity -/

/-- Two nodes that agree on everything the decay path can read or keep,
differing at most in their adjacency list (and dream bookkeeping). -/
def EqExceptConnections (n n' : InterestNode) : Prop :=
  n'.weight = n.weight ∧ n'.lastActive = n.lastActive ∧
  n'.accessCount = n.accessCount ∧ n'.isCore = n.isCore ∧
  n'.memoryType = n.memoryType

theorem eqExceptConnections_refl (n : InterestNode) : EqExceptConnections n n :=
  ⟨rfl, rfl, rfl, rfl, rfl⟩

theorem eqExceptConnections_trans {a b c : InterestNode}
    (h1 : EqExceptConnections a b) (h2 : EqExceptConnections b c) :
    EqExceptConnections a c := by
  obtain ⟨w1, l1, a1, c1, m1⟩ := h1
  obtain ⟨w2, l2, a2, c2, m2⟩ := h2
  exact ⟨w2.trans w1, l2.trans l1, a2.trans a1, c2.trans c1, m2.trans m1⟩

theorem alistLookup_filter_key {α : Type} (m : List (String × α)) (x t : String) :
    alistLookup (m.filter fun p => p.1 ≠ x) t =
      if t = x then none else alistLookup m t := by
  induction m with
  | nil => simp [alistLookup]
  | cons p rest ih =>
    obtain ⟨a, v⟩ := p
    rw [List.filter_cons]
    by_cases hax : a = x
    · subst hax
      rw [if_neg (by simp)]
      rw [ih]
      by_cases hta : t = a
      · simp [hta]
      · have hat : a ≠ t := fun h => hta h.symm
        simp [alistLookup, hta, hat]
    · rw [if_pos (by simpa using hax)]
      by_cases hta : a = t
      · subst hta
        simp [alistLookup, hax]
      · simp only [decide_not] at ih
        simp [alistLookup, hta, ih]

/-- A fold of field-preserving entry updates preserves the decay-relevant
fields of every lookup. -/
theorem foldl_updateEntry_fields (f : String → InterestNode → InterestNode)
    (hf : ∀ ct c, EqExceptConnections c (f ct c)) (conns : List String)
    (m : List (String × InterestNode)) (t : String) (n' : InterestNode)
    (h : alistLookup
      (conns.foldl (fun acc ct => updateEntry acc ct (f ct)) m) t = some n') :
    ∃ n, alistLookup m t = some n ∧ EqExceptConnections n n' := by
  induction conns generalizing m with
  | nil => exact ⟨n', h, eqExceptConnections_refl n'⟩
  | cons ct rest ih =>
    simp only [List.foldl_cons] at h
    obtain ⟨n₁, hn₁, he₁⟩ := ih (updateEntry m ct (f ct)) h
    by_cases hct : t = ct
    · subst hct
      rw [alistLookup_updateEntry_self] at hn₁
      cases hm : alistLookup m t with
      | none => rw [hm] at hn₁; simp at hn₁
      | some n₀ =>
        rw [hm] at hn₁
        obtain ⟨rfl⟩ := Option.some.inj hn₁
        exact ⟨n₀, rfl, eqExceptConnections_trans (hf t n₀) he₁⟩
    · rw [alistLookup_updateEntry_ne _ _ hct] at hn₁
      exact ⟨n₁, hn₁, he₁⟩

theorem removeInterest_eq_none (st : BrainState) (x : String)
    (hx : alistLookup st.interests x = none) : removeInterest st x = st := by
  unfold removeInterest
  rw [hx]

theorem removeInterest_eq_some (st : BrainState) (x : String)
    (node : InterestNode) (hx : alistLookup st.interests x = some node) :
    removeInterest st x =
      { interests := (node.connections.foldl
          (fun acc ct => updateEntry acc ct
            (fun c => { c with connections := c.connections.filter (fun t => t ≠ x) }))
          st.interests).filter fun p => p.1 ≠ x
        connections := st.connections.filter
          fun c => c.fromTopic ≠ x ∧ c.toTopic ≠ x } := by
  unfold removeInterest
  rw [hx]

/-- `removeInterest` preserves the decay-relevant fields of every node that
survives it. -/
theorem removeInterest_lookup_fields (st : BrainState) (x t : String)
    (n' : InterestNode)
    (h : alistLookup (removeInterest st x).interests t = some n') :
    ∃ n, alistLookup st.interests t = some n ∧ EqExceptConnections n n' := by
  cases hx : alistLookup st.interests x with
  | none =>
    rw [removeInterest_eq_none st x hx] at h
    exact ⟨n', h, eqExceptConnections_refl n'⟩
  | some node =>
    rw [removeInterest_eq_some st x node hx] at h
    simp only at h
    rw [alistLookup_filter_key] at h
    by_cases htx : t = x
    · rw [if_pos htx] at h; cases h
    · rw [if_neg htx] at h
      exact foldl_updateEntry_fields
        (fun _ c => { c with connections := c.connections.filter (fun t => t ≠ x) })
        (fun _ c => ⟨rfl, rfl, rfl, rfl, rfl⟩)
        node.connections st.interests t n' h

/-- The removal pass of `applyDecay` preserves the decay-relevant fields of
every surviving node. -/
theorem foldl_removeInterest_fields (ts : List String) (st : BrainState)
    (t : String) (n' : InterestNode)
    (h : alistLookup (ts.foldl removeInterest st).interests t = some n') :
    ∃ n, alistLookup st.interests t = some n ∧ EqExceptConnections n n' := by
  induction ts generalizing st with
  | nil => exact ⟨n', h, eqExceptConnections_refl n'⟩
  | cons x rest ih =>
    simp only [List.foldl_cons] at h
    obtain ⟨n₁, hn₁, he₁⟩ := ih (removeInterest st x) h
    obtain ⟨n₀, hn₀, he₀⟩ := removeInterest_lookup_fields st x t n₁ hn₁
    exact ⟨n₀, hn₀, eqExceptConnections_trans he₀ he₁⟩

/-- `updateCoreNode` with its `let` bindings unfolded. -/
theorem updateCoreNode_def (n : InterestNode) :
    updateCoreNode n =
      if decide (coreThreshold ≤ n.weight) && !n.isCore then
        { n with isCore := decide (coreThreshold ≤ n.weight), memoryType := .core }
      else if !decide (coreThreshold ≤ n.weight) && decide (n.memoryType = .core) then
        { n with isCore := decide (coreThreshold ≤ n.weight),
                 memoryType := .longTerm }
      else { n with isCore := decide (coreThreshold ≤ n.weight) } := rfl

theorem updateCoreNode_weight (n : InterestNode) :
    (updateCoreNode n).weight = n.weight := by
  rw [updateCoreNode_def]
  split
  · rfl
  · split <;> rfl

theorem updateCoreNode_lastActive (n : InterestNode) :
    (updateCoreNode n).lastActive = n.lastActive := by
  rw [updateCoreNode_def]
  split
  · rfl
  · split <;> rfl

theorem updateCoreNode_accessCount (n : InterestNode) :
    (updateCoreNode n).accessCount = n.accessCount := by
  rw [updateCoreNode_def]
  split
  · rfl
  · split <;> rfl

theorem decayNode_weight (now : ℤ) (n : InterestNode) :
    (decayNode now n).weight =
      max (n.weight - decayRate * ((now - n.lastActive : ℤ) : ℚ) *
        (if n.isCore then 1 / 10 else 1) *
        (if n.memoryType = .longTerm then 3 / 10 else 1)) 0 := rfl

/-- **C5.**  For every node present before and after a decay tick (with the
clock at or after the node's `lastActive`, as the source's `Date.now()`
guarantees, and the standing invariant of non-negative weights), the weight
after the tick is at most the weight before, and the new weight is
non-negative. -/
theorem applyDecay_monotone (now : ℤ) (st : BrainState)
    (h0 : ∀ p ∈ st.interests, 0 ≤ p.2.weight)
    (hT : ∀ p ∈ st.interests, p.2.lastActive ≤ now) :
    ∀ t n n', alistLookup st.interests t = some n →
      alistLookup (applyDecay now st).interests t = some n' →
      n'.weight ≤ n.weight ∧ 0 ≤ n'.weight := by
  intro t n n' hbefore hafter
  unfold applyDecay at hafter
  simp only at hafter
  rw [show updateCoreStatus = mapValues updateCoreNode from rfl] at hafter
  rw [alistLookup_mapValues] at hafter
  cases h2 : alistLookup
      (((mapValues (decayNode now) st.interests).filter
          (fun p => p.2.weight < minWeight)).map Prod.fst |>.foldl removeInterest
        { st with interests := mapValues (decayNode now) st.interests }).interests t with
  | none => rw [h2] at hafter; cases hafter
  | some n₂ =>
    rw [h2] at hafter
    obtain ⟨rfl⟩ := Option.some.inj hafter
    obtain ⟨n₁, hn₁, he₁⟩ := foldl_removeInterest_fields _ _ t n₂ h2
    simp only at hn₁
    rw [alistLookup_mapValues, hbefore] at hn₁
    obtain ⟨rfl⟩ := Option.some.inj hn₁
    have hw : (updateCoreNode n₂).weight = (decayNode now n).weight := by
      rw [updateCoreNode_weight, he₁.1]
    rw [hw, decayNode_weight]
    have hmem := mem_of_alistLookup hbefore
    have hage : (0 : ℚ) ≤ ((now - n.lastActive : ℤ) : ℚ) := by
      have := hT _ hmem
      exact_mod_cast Int.sub_nonneg.mpr this
    have hamt : 0 ≤ decayRate * ((now - n.lastActive : ℤ) : ℚ) *
        (if n.isCore then (1 : ℚ) / 10 else 1) *
        (if n.memoryType = .longTerm then (3 : ℚ) / 10 else 1) := by
      have hr : (0 : ℚ) ≤ decayRate := by norm_num [decayRate]
      have hm1 : (0 : ℚ) ≤ if n.isCore then (1 : ℚ) / 10 else 1 := by
        split <;> norm_num
      have hm2 : (0 : ℚ) ≤ if n.memoryType = .longTerm then (3 : ℚ) / 10 else 1 := by
        split <;> norm_num
      positivity
    constructor
    · exact max_le (by linarith) (h0 _ hmem)
    · exact le_max_right _ _

/-- Witness state for C5: one node of weight 1, last active at time 0. -/
def decayWitNode : InterestNode :=
  { topic := "ai", weight := 1, connections := [], lastActive := 0,
    createdAt := 0, accessCount := 1, isCore := false, memoryType := .shortTerm,
    keywords := [] }

def decayWitState : BrainState :=
  { interests := [("ai", decayWitNode)], connections := [] }

/-- `applyDecay` with its `let` bindings unfolded. -/
theorem applyDecay_def (now : ℤ) (st : BrainState) :
    applyDecay now st =
      { ((((mapValues (decayNode now) st.interests).filter
            (fun p => p.2.weight < minWeight)).map Prod.fst).foldl removeInterest
            { st with interests := mapValues (decayNode now) st.interests }) with
          interests := updateCoreStatus
            (((((mapValues (decayNode now) st.interests).filter
              (fun p => p.2.weight < minWeight)).map Prod.fst).foldl removeInterest
              { st with interests := mapValues (decayNode now) st.interests }).interests) } :=
  rfl

theorem applyDecay_monotone_witness :
    alistLookup (applyDecay 1000 decayWitState).interests "ai" =
      some (updateCoreNode (decayNode 1000 decayWitNode)) ∧
    (updateCoreNode (decayNode 1000 decayWitNode)).weight ≤ decayWitNode.weight ∧
    0 ≤ (updateCoreNode (decayNode 1000 decayWitNode)).weight := by
  have h0 : ∀ p ∈ decayWitState.interests, 0 ≤ p.2.weight := by
    intro p hp
    simp only [decayWitState, List.mem_singleton] at hp
    subst hp
    norm_num [decayWitNode]
  have hT : ∀ p ∈ decayWitState.interests, p.2.lastActive ≤ (1000 : ℤ) := by
    intro p hp
    simp only [decayWitState, List.mem_singleton] at hp
    subst hp
    norm_num [decayWitNode]
  have hd : (decayNode 1000 decayWitNode).weight = 9 / 10 := by
    rw [decayNode_weight]
    norm_num [decayWitNode, decayRate]
    rw [if_neg (by decide)]
    rw [max_eq_left (by norm_num)]
    norm_num
  have hfilter : ((mapValues (decayNode 1000) decayWitState.interests).filter
      (fun p => p.2.weight < minWeight)) = [] := by
    show List.filter _ (mapValues (decayNode 1000) [("ai", decayWitNode)]) = []
    simp only [mapValues, List.map_cons, List.map_nil]
    rw [List.filter_cons]
    rw [if_neg (by simp only [decide_eq_true_eq]; rw [hd]; norm_num [minWeight])]
    rfl
  have happly : applyDecay 1000 decayWitState =
      ⟨updateCoreStatus (mapValues (decayNode 1000) decayWitState.interests),
       decayWitState.connections⟩ := by
    rw [applyDecay_def, hfilter]
    simp only [List.map_nil, List.foldl_nil]
  have hafter : alistLookup (applyDecay 1000 decayWitState).interests "ai" =
      some (updateCoreNode (decayNode 1000 decayWitNode)) := by
    rw [happly]
    show alistLookup (updateCoreStatus (mapValues (decayNode 1000)
      decayWitState.interests)) "ai" = _
    rw [show updateCoreStatus = mapValues updateCoreNode from rfl]
    rw [alistLookup_mapValues, alistLookup_mapValues]
    rfl
  exact ⟨hafter,
    applyDecay_monotone 1000 decayWitState h0 hT "ai" decayWitNode
      (updateCoreNode (decayNode 1000 decayWitNode)) rfl hafter⟩

/-! ### C6 / C10: reinforcement arithmetic and its neighbor side effects -/

theorem reinforceConnectedStep_lookup_ne (now : ℤ) (strength : ℚ)
    (m : List (String × InterestNode)) {u ct : String} (h : u ≠ ct) :
    alistLookup (reinforceConnectedStep now strength m ct) u = alistLookup m u := by
  unfold reinforceConnectedStep
  cases hct : alistLookup m ct with
  | none => rfl
  | some c => exact alistLookup_updateEntry_ne m _ h

theorem reinforceConnectedStep_lookup_self (now : ℤ) (strength : ℚ)
    (m : List (String × InterestNode)) (ct : String) :
    alistLookup (reinforceConnectedStep now strength m ct) ct =
      (alistLookup m ct).map (reinforceNeighborNode now strength) := by
  unfold reinforceConnectedStep
  cases hct : alistLookup m ct with
  | none => rw [hct]; rfl
  | some c =>
    rw [alistLookup_updateEntry_self, hct]

theorem reinforce_fold_frame (now : ℤ) (strength : ℚ) (conns : List String)
    (m : List (String × InterestNode)) (u : String) (hu : u ∉ conns) :
    alistLookup (conns.foldl (reinforceConnectedStep now strength) m) u =
      alistLookup m u := by
  induction conns generalizing m with
  | nil => rfl
  | cons ct rest ih =>
    simp only [List.foldl_cons]
    have hne : u ≠ ct := fun he => hu (he ▸ List.mem_cons_self ct rest)
    rw [ih _ fun hm => hu (List.mem_cons_of_mem _ hm),
      reinforceConnectedStep_lookup_ne now strength m hne]

theorem reinforce_fold_hit (now : ℤ) (strength : ℚ) (conns : List String)
    (hnd : conns.Nodup) (m : List (String × InterestNode)) (ct : String)
    (hct : ct ∈ conns) :
    alistLookup (conns.foldl (reinforceConnectedStep now strength) m) ct =
      (alistLookup m ct).map (reinforceNeighborNode now strength) := by
  induction conns generalizing m with
  | nil => cases hct
  | cons c rest ih =>
    simp only [List.foldl_cons]
    rcases List.mem_cons.mp hct with rfl | hmem
    · have hnotin : ct ∉ rest := (List.nodup_cons.mp hnd).1
      rw [reinforce_fold_frame now strength rest _ ct hnotin]
      exact reinforceConnectedStep_lookup_self now strength m ct
    · have hne : ct ≠ c := by
        rintro rfl
        exact (List.nodup_cons.mp hnd).1 hmem
      rw [ih (List.nodup_cons.mp hnd).2 _ hmem,
        reinforceConnectedStep_lookup_ne now strength m hne]

theorem reinforceInterest_eq_some (now : ℤ) (st : BrainState) (topic : String)
    (strength : ℚ) (node : InterestNode)
    (h : alistLookup st.interests topic = some node) :
    reinforceInterest now st topic strength =
      ⟨node.connections.foldl (reinforceConnectedStep now strength)
        (updateEntry st.interests topic (reinforceSelfNode now strength)),
       st.connections⟩ := by
  unfold reinforceInterest
  rw [h]

/-- Where every lookup lands after reinforcing an existing topic (shared by
the C6 and C10 theorems). -/
theorem reinforceInterest_lookups (now : ℤ) (st : BrainState) (topic : String)
    (strength : ℚ) (node : InterestNode)
    (h : alistLookup st.interests topic = some node)
    (hself : topic ∉ node.connections) (hnd : node.connections.Nodup) :
    alistLookup (reinforceInterest now st topic strength).interests topic =
      some (reinforceSelfNode now strength node) ∧
    ∀ ct ∈ node.connections,
      alistLookup (reinforceInterest now st topic strength).interests ct =
        (alistLookup st.interests ct).map (reinforceNeighborNode now strength) := by
  rw [reinforceInterest_eq_some now st topic strength node h]
  constructor
  · show alistLookup (node.connections.foldl (reinforceConnectedStep now strength)
      (updateEntry st.interests topic (reinforceSelfNode now strength))) topic = _
    rw [reinforce_fold_frame now strength node.connections _ topic hself,
      alistLookup_updateEntry_self, h]
    rfl
  · intro ct hct
    show alistLookup (node.connections.foldl (reinforceConnectedStep now strength)
      (updateEntry st.interests topic (reinforceSelfNode now strength))) ct = _
    have hne : ct ≠ topic := fun he => hself (he ▸ hct)
    rw [reinforce_fold_hit now strength node.connections hnd _ ct hct,
      alistLookup_updateEntry_ne _ _ hne]

theorem addInterestBody_existing (now : ℤ) (st : BrainState) (topic : String)
    (strength : ℚ) (h : (alistLookup st.interests (normalize topic)).isSome) :
    addInterestBody now st topic strength =
      reinforceInterest now st (normalize topic) strength := by
  unfold addInterestBody
  rw [if_pos h]

/-- Where every lookup lands after `addInterest` on an existing topic: the
reinforcement of `reinforceInterest` followed by the per-node
`updateCoreStatus`. -/
theorem addInterest_existing_lookups (now : ℤ) (st : BrainState)
    (topic : String) (strength : ℚ) (node : InterestNode)
    (h : alistLookup st.interests (normalize topic) = some node)
    (hself : normalize topic ∉ node.connections)
    (hnd : node.connections.Nodup) :
    alistLookup (addInterest now st topic strength).interests (normalize topic) =
      some (updateCoreNode (reinforceSelfNode now strength node)) ∧
    ∀ ct ∈ node.connections,
      alistLookup (addInterest now st topic strength).interests ct =
        (alistLookup st.interests ct).map
          (fun c => updateCoreNode (reinforceNeighborNode now strength c)) := by
  obtain ⟨hl1, hl2⟩ := reinforceInterest_lookups now st (normalize topic) strength
    node h hself hnd
  have hbody := addInterestBody_existing now st topic strength (by rw [h]; rfl)
  have hadd : (addInterest now st topic strength).interests =
      updateCoreStatus (addInterestBody now st topic strength).interests := rfl
  constructor
  · rw [hadd, hbody]
    rw [show updateCoreStatus = mapValues updateCoreNode from rfl,
      alistLookup_mapValues, hl1]
    rfl
  · intro ct hct
    rw [hadd, hbody]
    rw [show updateCoreStatus = mapValues updateCoreNode from rfl,
      alistLookup_mapValues, hl2 ct hct, Option.map_map]
    rfl

/-- **C6.**  For every existing topic, `addOrReinforce(topic, strength)` sets
the node's weight to exactly `min(oldWeight + strength, maxWeight)`, updates
its `lastActive`, increments its `accessCount` by one, and caps-adds
`strength × reinforcementFactor` to the weight of every directly connected
node.  (Hypotheses: the topic has no self-loop and no duplicate adjacency
entries, which the graph operations maintain.) -/
theorem addInterest_reinforce_arithmetic (now : ℤ) (st : BrainState)
    (topic : String) (strength : ℚ) (node : InterestNode)
    (h : alistLookup st.interests (normalize topic) = some node)
    (hself : normalize topic ∉ node.connections)
    (hnd : node.connections.Nodup) :
    (∃ n', alistLookup (addInterest now st topic strength).interests
        (normalize topic) = some n' ∧
      n'.weight = min (node.weight + strength) maxWeight ∧
      n'.lastActive = now ∧ n'.accessCount = node.accessCount + 1) ∧
    ∀ ct ∈ node.connections, ∀ cn, alistLookup st.interests ct = some cn →
      ∃ cn', alistLookup (addInterest now st topic strength).interests ct =
          some cn' ∧
        cn'.weight = min (cn.weight + strength * reinforcementFactor) maxWeight ∧
        cn'.lastActive = now := by
  obtain ⟨hl1, hl2⟩ := addInterest_existing_lookups now st topic strength node
    h hself hnd
  constructor
  · refine ⟨updateCoreNode (reinforceSelfNode now strength node), hl1, ?_, ?_, ?_⟩
    · rw [updateCoreNode_weight]; rfl
    · rw [updateCoreNode_lastActive]; rfl
    · rw [updateCoreNode_accessCount]; rfl
  · intro ct hct cn hcn
    refine ⟨updateCoreNode (reinforceNeighborNode now strength cn), ?_, ?_, ?_⟩
    · rw [hl2 ct hct, hcn]; rfl
    · rw [updateCoreNode_weight]; rfl
    · rw [updateCoreNode_lastActive]; rfl

/-- Witness nodes for C6 / C10: `"art"` at weight 0.3 connected to `"deco"`. -/
def reinforceWitNode : InterestNode :=
  { topic := "art", weight := 3 / 10, connections := ["deco"], lastActive := 0,
    createdAt := 0, accessCount := 4, isCore := false, memoryType := .shortTerm,
    keywords := ["art"] }

def reinforceWitNeighbor : InterestNode :=
  { topic := "deco", weight := 1, connections := ["art"], lastActive := 0,
    createdAt := 0, accessCount := 1, isCore := false, memoryType := .shortTerm,
    keywords := ["deco"] }

def reinforceWitState : BrainState :=
  { interests := [("art", reinforceWitNode), ("deco", reinforceWitNeighbor)],
    connections := [] }

/-- Witness for C6 at weight 0.3 and strength 0.1: the new weight is exactly
`min(0.4, maxWeight) = 0.4`. -/
theorem addInterest_reinforce_arithmetic_witness :
    ((∃ n', alistLookup (addInterest 77 reinforceWitState "art" (1 / 10)).interests
        (normalize "art") = some n' ∧
      n'.weight = min (reinforceWitNode.weight + 1 / 10) maxWeight ∧
      n'.lastActive = 77 ∧ n'.accessCount = reinforceWitNode.accessCount + 1) ∧
    ∀ ct ∈ reinforceWitNode.connections, ∀ cn,
      alistLookup reinforceWitState.interests ct = some cn →
      ∃ cn', alistLookup (addInterest 77 reinforceWitState "art" (1 / 10)).interests
          ct = some cn' ∧
        cn'.weight = min (cn.weight + 1 / 10 * reinforcementFactor) maxWeight ∧
        cn'.lastActive = 77) ∧
    min (reinforceWitNode.weight + 1 / 10) maxWeight = 2 / 5 :=
  ⟨addInterest_reinforce_arithmetic 77 reinforceWitState "art" (1 / 10)
      reinforceWitNode rfl (by decide) (by decide),
   by rw [show reinforceWitNode.weight = 3 / 10 from rfl]
      rw [min_eq_left (by norm_num [maxWeight])]
      norm_num⟩

theorem scoreForPromotion_recencyScore (now : ℤ) (n : InterestNode) :
    (scoreForPromotion now n).recencyScore =
      max (1 - ((now - n.lastActive : ℤ) : ℝ) / (7 * 24 * 60 * 60 * 1000)) 0 := rfl

/-- **C10.**  Reinforcing an existing topic also sets the `lastActive` of
every directly connected neighbor to the current time, so that the neighbor's
decay age is zero from that moment and its promotion recency sub-score is
maximal (1). -/
theorem addInterest_touches_neighbors (now : ℤ) (st : BrainState)
    (topic : String) (strength : ℚ) (node : InterestNode)
    (h : alistLookup st.interests (normalize topic) = some node)
    (hself : normalize topic ∉ node.connections)
    (hnd : node.connections.Nodup) :
    ∀ ct ∈ node.connections, ∀ cn, alistLookup st.interests ct = some cn →
      ∃ cn', alistLookup (addInterest now st topic strength).interests ct =
          some cn' ∧
        cn'.lastActive = now ∧
        (scoreForPromotion now cn').recencyScore = 1 := by
  obtain ⟨_, hl2⟩ := addInterest_existing_lookups now st topic strength node
    h hself hnd
  intro ct hct cn hcn
  refine ⟨updateCoreNode (reinforceNeighborNode now strength cn), ?_, ?_, ?_⟩
  · rw [hl2 ct hct, hcn]; rfl
  · rw [updateCoreNode_lastActive]; rfl
  · rw [scoreForPromotion_recencyScore, updateCoreNode_lastActive]
    rw [show (reinforceNeighborNode now strength cn).lastActive = now from rfl]
    rw [sub_self]
    norm_num

/-- Witness for C10 at the same two-node state, at the concrete neighbor
`"deco"`. -/
theorem addInterest_touches_neighbors_witness :
    ∃ cn', alistLookup (addInterest 77 reinforceWitState "art" (1 / 10)).interests
        "deco" = some cn' ∧
      cn'.lastActive = 77 ∧
      (scoreForPromotion 77 cn').recencyScore = 1 :=
  addInterest_touches_neighbors 77 reinforceWitState "art" (1 / 10)
    reinforceWitNode rfl (by decide) (by decide) "deco" (by decide)
    reinforceWitNeighbor rfl

/-! ### C3: core hysteresis -/

/-- The hysteresis invariant the engine maintains on every reachable node:
`isCore` mirrors the weight threshold as of the last core-status evaluation,
and `isCore` holds exactly on `core` nodes. -/
def CoreInvariant (n : InterestNode) : Prop :=
  (n.isCore = true ↔ coreThreshold ≤ n.weight) ∧
  (n.isCore = true ↔ n.memoryType = .core)

theorem coreInvariant_updateCoreNode (m : InterestNode)
    (h : m.isCore = true ↔ m.memoryType = .core) :
    CoreInvariant (updateCoreNode m) := by
  unfold CoreInvariant
  rw [updateCoreNode_def]
  by_cases hw : coreThreshold ≤ m.weight
  · rw [decide_eq_true hw]
    cases hc : m.isCore
    · simp [hw]
    · have hm : m.memoryType = .core := h.mp hc
      simp [hw, hm]
  · rw [decide_eq_false hw]
    by_cases hm : m.memoryType = .core
    · simp [hw, hm]
    · simp [hw, hm]

theorem assocBumpNode_isCore (other : String) (n : InterestNode) :
    (assocBumpNode other n).isCore = n.isCore := by
  unfold assocBumpNode
  split <;> rfl

theorem assocBumpNode_memoryType (other : String) (n : InterestNode) :
    (assocBumpNode other n).memoryType = n.memoryType := by
  unfold assocBumpNode
  split <;> rfl

/-- Every step of the per-node transition system preserves the hysteresis
invariant. -/
theorem coreInvariant_step {n n' : InterestNode} (hn : CoreInvariant n)
    (hs : NodeStep n n') : CoreInvariant n' := by
  obtain ⟨h1, h2⟩ := hn
  cases hs with
  | reinforceSelf now s n => exact coreInvariant_updateCoreNode _ h2
  | reinforceNeighbor now s n => exact coreInvariant_updateCoreNode _ h2
  | assocConn other n =>
    refine coreInvariant_updateCoreNode _ ?_
    rw [assocBumpNode_isCore, assocBumpNode_memoryType]
    exact h2
  | decay now n => exact coreInvariant_updateCoreNode _ h2
  | idle n => exact coreInvariant_updateCoreNode _ h2
  | promote now n hshort =>
    have hcore : n.isCore = false := by
      cases hc : n.isCore
      · rfl
      · rw [h2.mp hc] at hshort
        cases hshort
    constructor
    · show n.isCore = true ↔ coreThreshold ≤ n.weight
      exact h1
    · show n.isCore = true ↔ MemoryType.longTerm = .core
      rw [hcore]
      simp

theorem coreInvariant_init (now : ℤ) (topic : String) :
    CoreInvariant (createInterestNode now topic) := by
  unfold CoreInvariant createInterestNode
  constructor
  · simp only
    constructor
    · intro h
      cases h
    · intro h
      exfalso
      rw [show initialWeight = 1 / 2 from rfl, coreThreshold] at h
      norm_num at h
  · simp

theorem coreInvariant_reachable {n : InterestNode} (h : ReachableNode n) :
    CoreInvariant n := by
  induction h with
  | init now topic => exact coreInvariant_init now topic
  | step _ hs ih => exact coreInvariant_step ih hs

/-- What `updateCoreNode` does to a node that is currently `core`. -/
theorem updateCoreNode_from_core (m : InterestNode) (hm : m.memoryType = .core) :
    ((updateCoreNode m).memoryType = .core ∨
      (updateCoreNode m).memoryType = .longTerm) ∧
    (¬coreThreshold ≤ m.weight → (updateCoreNode m).memoryType = .longTerm) := by
  rw [updateCoreNode_def]
  by_cases hw : coreThreshold ≤ m.weight
  · rw [decide_eq_true hw]
    cases hc : m.isCore <;> simp [hm, hw]
  · rw [decide_eq_false hw]
    simp [hm, hw]

/-- **C3.**  Core hysteresis along every reachable transition of the per-node
system: a state whose weight is at or above `coreThreshold` after a step has
`memoryType = core`; a `core` node whose weight drops below the threshold
moves to `longTerm`; and no step takes a `core` node directly to
`shortTerm`. -/
theorem core_hysteresis {n n' : InterestNode} (hr : ReachableNode n)
    (hs : NodeStep n n') :
    (n.memoryType = .core → n'.memoryType ≠ .shortTerm) ∧
    (coreThreshold ≤ n'.weight → n'.memoryType = .core) ∧
    (n.memoryType = .core → n'.weight < coreThreshold →
      n'.memoryType = .longTerm) := by
  have hinv := coreInvariant_reachable hr
  have hinv' := coreInvariant_step hinv hs
  refine ⟨?_, ?_, ?_⟩
  · intro hcore
    cases hs with
    | reinforceSelf now s n =>
      rcases (updateCoreNode_from_core (reinforceSelfNode now s n) hcore).1
        with h | h <;> rw [h] <;> simp
    | reinforceNeighbor now s n =>
      rcases (updateCoreNode_from_core (reinforceNeighborNode now s n) hcore).1
        with h | h <;> rw [h] <;> simp
    | assocConn other n =>
      rcases (updateCoreNode_from_core (assocBumpNode other n)
        ((assocBumpNode_memoryType other n).trans hcore)).1
        with h | h <;> rw [h] <;> simp
    | decay now n =>
      rcases (updateCoreNode_from_core (decayNode now n) hcore).1
        with h | h <;> rw [h] <;> simp
    | idle n =>
      rcases (updateCoreNode_from_core n hcore).1 with h | h <;> rw [h] <;> simp
    | promote now n hshort =>
      rw [hshort] at hcore
      cases hcore
  · intro hw
    exact hinv'.2.mp (hinv'.1.mpr hw)
  · intro hcore hw'
    cases hs with
    | reinforceSelf now s n =>
      refine (updateCoreNode_from_core (reinforceSelfNode now s n) hcore).2 ?_
      rw [show (reinforceSelfNode now s n).weight =
        (updateCoreNode (reinforceSelfNode now s n)).weight from
        (updateCoreNode_weight _).symm]
      exact not_le.mpr hw'
    | reinforceNeighbor now s n =>
      refine (updateCoreNode_from_core (reinforceNeighborNode now s n) hcore).2 ?_
      rw [show (reinforceNeighborNode now s n).weight =
        (updateCoreNode (reinforceNeighborNode now s n)).weight from
        (updateCoreNode_weight _).symm]
      exact not_le.mpr hw'
    | assocConn other n =>
      refine (updateCoreNode_from_core (assocBumpNode other n)
        ((assocBumpNode_memoryType other n).trans hcore)).2 ?_
      rw [show (assocBumpNode other n).weight =
        (updateCoreNode (assocBumpNode other n)).weight from
        (updateCoreNode_weight _).symm]
      exact not_le.mpr hw'
    | decay now n =>
      refine (updateCoreNode_from_core (decayNode now n) hcore).2 ?_
      rw [show (decayNode now n).weight =
        (updateCoreNode (decayNode now n)).weight from
        (updateCoreNode_weight _).symm]
      exact not_le.mpr hw'
    | idle n =>
      refine (updateCoreNode_from_core n hcore).2 ?_
      rw [show n.weight = (updateCoreNode n).weight from
        (updateCoreNode_weight _).symm]
      exact not_le.mpr hw'
    | promote now n hshort => rfl

/-- Witness for C3: a freshly created node reinforced once. -/
theorem core_hysteresis_witness :
    ((createInterestNode 0 "ml").memoryType = .core →
      (updateCoreNode (reinforceSelfNode 5 (1 / 10)
        (createInterestNode 0 "ml"))).memoryType ≠ .shortTerm) ∧
    (coreThreshold ≤ (updateCoreNode (reinforceSelfNode 5 (1 / 10)
        (createInterestNode 0 "ml"))).weight →
      (updateCoreNode (reinforceSelfNode 5 (1 / 10)
        (createInterestNode 0 "ml"))).memoryType = .core) ∧
    ((createInterestNode 0 "ml").memoryType = .core →
      (updateCoreNode (reinforceSelfNode 5 (1 / 10)
        (createInterestNode 0 "ml"))).weight < coreThreshold →
      (updateCoreNode (reinforceSelfNode 5 (1 / 10)
        (createInterestNode 0 "ml"))).memoryType = .longTerm) :=
  core_hysteresis (ReachableNode.init 0 "ml")
    (NodeStep.reinforceSelf 5 (1 / 10) (createInterestNode 0 "ml"))

/-! ### C8: consolidate() removes no node -/

theorem promoteToLongTerm_fst (now : ℤ) (brain : BrainState)
    (ltm : List InterestNode) (i : InterestNode) :
    (promoteToLongTerm now brain ltm i).1 =
      ⟨updateEntry brain.interests i.topic
        (fun n => { n with memoryType := .longTerm, promotedAt := some now }),
       brain.connections⟩ := rfl

theorem consolidateStep_keys (now : ℤ)
    (acc : BrainState × List InterestNode × List PromotedEntry × List ForgottenEntry)
    (i : InterestNode) :
    (consolidateStep now acc i).1.interests.map Prod.fst =
      acc.1.interests.map Prod.fst := by
  unfold consolidateStep
  split
  · show ((promoteToLongTerm now acc.1 acc.2.1 i).1).interests.map Prod.fst = _
    rw [promoteToLongTerm_fst]
    exact keys_updateEntry acc.1.interests i.topic
      (fun n => { n with memoryType := .longTerm, promotedAt := some now })
  · split
    · rfl
    · rfl

theorem consolidate_fold_keys (now : ℤ) (l : List InterestNode)
    (acc : BrainState × List InterestNode × List PromotedEntry × List ForgottenEntry) :
    (l.foldl (consolidateStep now) acc).1.interests.map Prod.fst =
      acc.1.interests.map Prod.fst := by
  induction l generalizing acc with
  | nil => rfl
  | cons i rest ih =>
    simp only [List.foldl_cons]
    rw [ih, consolidateStep_keys]

theorem consolidateStep_forgotten_mono (now : ℤ)
    (acc : BrainState × List InterestNode × List PromotedEntry × List ForgottenEntry)
    (i : InterestNode) :
    ∀ e ∈ acc.2.2.2, e ∈ (consolidateStep now acc i).2.2.2 := by
  unfold consolidateStep
  split
  · exact fun e he => he
  · split
    · exact fun e he => List.mem_append_left _ he
    · exact fun e he => he

theorem consolidate_fold_forgotten_mono (now : ℤ) (l : List InterestNode)
    (acc : BrainState × List InterestNode × List PromotedEntry × List ForgottenEntry) :
    ∀ e ∈ acc.2.2.2, e ∈ (l.foldl (consolidateStep now) acc).2.2.2 := by
  induction l generalizing acc with
  | nil => exact fun e he => he
  | cons i rest ih =>
    intro e he
    simp only [List.foldl_cons]
    exact ih _ e (consolidateStep_forgotten_mono now acc i e he)

theorem consolidateStep_forgotten_hit (now : ℤ)
    (acc : BrainState × List InterestNode × List PromotedEntry × List ForgottenEntry)
    (i : InterestNode)
    (hsc : (scoreForPromotion now i).total < promotionThreshold)
    (hw : i.weight < 1 / 10) :
    (⟨i.topic, i.weight⟩ : ForgottenEntry) ∈ (consolidateStep now acc i).2.2.2 := by
  unfold consolidateStep
  rw [if_neg (not_le.mpr hsc), if_pos hw]
  exact List.mem_append_right _ (List.mem_singleton_self _)

/-- **C8.**  `consolidate()` removes no node from the interest graph — the
key set of the node table is unchanged — and every short-term node with
weight below 0.1 that misses the promotion threshold is reported in the
`forgotten` list of the result while remaining present in the graph. -/
theorem consolidate_removes_nothing (now : ℤ) (brain : BrainState)
    (ltm : List InterestNode) :
    ((consolidate now brain ltm).1.interests.map Prod.fst =
      brain.interests.map Prod.fst) ∧
    (∀ t n, alistLookup brain.interests t = some n →
      n.memoryType = .shortTerm →
      (scoreForPromotion now n).total < promotionThreshold →
      n.weight < 1 / 10 →
      (⟨n.topic, n.weight⟩ : ForgottenEntry) ∈
        (consolidate now brain ltm).2.2.2.forgotten ∧
      alistLookup (consolidate now brain ltm).1.interests t ≠ none) := by
  have hkeys : (consolidate now brain ltm).1.interests.map Prod.fst =
      brain.interests.map Prod.fst := by
    show (consolidateFold now brain ltm).1.interests.map Prod.fst = _
    exact consolidate_fold_keys now _ _
  refine ⟨hkeys, ?_⟩
  intro t n hlook hshort hsc hw
  have hmem : n ∈ (brain.interests.map Prod.snd).filter
      (fun n => n.memoryType = .shortTerm) := by
    rw [List.mem_filter]
    exact ⟨List.mem_map_of_mem Prod.snd (mem_of_alistLookup hlook),
      by rw [hshort]; rfl⟩
  obtain ⟨l₁, l₂, hsplit⟩ := List.append_of_mem hmem
  constructor
  · show (⟨n.topic, n.weight⟩ : ForgottenEntry) ∈
      (consolidateFold now brain ltm).2.2.2
    unfold consolidateFold
    rw [hsplit, List.foldl_append, List.foldl_cons]
    exact consolidate_fold_forgotten_mono now l₂ _ _
      (consolidateStep_forgotten_hit now _ n hsc hw)
  · have hsome : (alistLookup brain.interests t).isSome := by rw [hlook]; rfl
    rw [alistLookup_isSome_iff] at hsome
    rw [← hkeys, ← alistLookup_isSome_iff] at hsome
    intro hnone
    rw [hnone] at hsome
    cases hsome

/-- `scoreForPromotion` with its `let` bindings unfolded. -/
theorem scoreForPromotion_total (now : ℤ) (n : InterestNode) :
    (scoreForPromotion now n).total =
      min ((n.weight : ℝ) / 1) 1 * 0.30 +
      min ((n.connections.length : ℝ) / 10) 1 * 0.30 +
      min (Real.log ((n.accessCount : ℝ) + 1) / Real.log (50 + 1)) 1 * 0.20 +
      max (1 - ((now - n.lastActive : ℤ) : ℝ) / (7 * 24 * 60 * 60 * 1000)) 0 *
        0.20 := rfl

/-- Witness state for C8: one weak short-term node two weeks stale. -/
def forgetWitNode : InterestNode :=
  { topic := "dust", weight := 1 / 20, connections := [], lastActive := 0,
    createdAt := 0, accessCount := 1, isCore := false, memoryType := .shortTerm,
    keywords := ["dust"] }

def forgetWitBrain : BrainState :=
  { interests := [("dust", forgetWitNode)], connections := [] }

theorem consolidate_removes_nothing_witness :
    (⟨forgetWitNode.topic, forgetWitNode.weight⟩ : ForgottenEntry) ∈
      (consolidate 1209600000 forgetWitBrain []).2.2.2.forgotten ∧
    alistLookup (consolidate 1209600000 forgetWitBrain []).1.interests "dust" ≠
      none := by
  have hsc : (scoreForPromotion 1209600000 forgetWitNode).total <
      promotionThreshold := by
    rw [scoreForPromotion_total]
    have h1 : min ((forgetWitNode.weight : ℝ) / 1) 1 = 1 / 20 := by
      rw [show forgetWitNode.weight = 1 / 20 from rfl]
      rw [min_eq_left (by norm_num)]
      norm_num
    have h2 : min ((forgetWitNode.connections.length : ℝ) / 10) 1 = 0 := by
      rw [show forgetWitNode.connections = ([] : List String) from rfl]
      norm_num
    have h3 : min (Real.log ((forgetWitNode.accessCount : ℝ) + 1) /
        Real.log (50 + 1)) 1 ≤ 1 := min_le_right _ _
    have h4 : max (1 - (((1209600000 : ℤ) - forgetWitNode.lastActive : ℤ) : ℝ) /
        (7 * 24 * 60 * 60 * 1000)) 0 = 0 := by
      rw [show forgetWitNode.lastActive = (0 : ℤ) from rfl]
      rw [max_eq_right (by norm_num)]
    rw [h1, h2, h4]
    rw [show promotionThreshold = ((3 : ℝ) / 5) from rfl]
    nlinarith [h3]
  have hw : forgetWitNode.weight < 1 / 10 := by
    rw [show forgetWitNode.weight = 1 / 20 from rfl]
    norm_num
  exact (consolidate_removes_nothing 1209600000 forgetWitBrain []).2 "dust"
    forgetWitNode rfl rfl hsc hw

/-! ### C1: invariants of evolve() -/

def GeneInBounds (x : ℚ) : Prop := 0 ≤ x ∧ x ≤ 1

def ApiInBounds (a : ApiPreferences) : Prop :=
  GeneInBounds a.wikipedia ∧ GeneInBounds a.hackerNews ∧
  GeneInBounds a.reddit ∧ GeneInBounds a.openLibrary

/-- Every scalar gene and every `apiPreferences` entry lies in `[0,1]`. -/
def GenesInBounds (g : Genes) : Prop :=
  GeneInBounds g.explorationBias ∧ GeneInBounds g.breadthPreference ∧
  GeneInBounds g.recencyWeight ∧ GeneInBounds g.connectionAffinity ∧
  GeneInBounds g.noveltySeeking ∧ ApiInBounds g.apiPreferences ∧
  GeneInBounds g.timePreference ∧ GeneInBounds g.riskTolerance ∧
  GeneInBounds g.memoryInfluence ∧ GeneInBounds g.serendipityFactor

theorem geneInBounds_of_rng {r : Rng} (hr : ∀ i, 0 ≤ r i ∧ r i < 1) (i : ℕ) :
    GeneInBounds (r i) := ⟨(hr i).1, le_of_lt (hr i).2⟩

theorem createRandomStrategy_bounds (now : ℤ) (g : ℕ) {r : Rng} (k : ℕ)
    (hr : ∀ i, 0 ≤ r i ∧ r i < 1) :
    GenesInBounds (createRandomStrategy now g r k).1.genes :=
  ⟨geneInBounds_of_rng hr _, geneInBounds_of_rng hr _, geneInBounds_of_rng hr _,
   geneInBounds_of_rng hr _, geneInBounds_of_rng hr _,
   ⟨geneInBounds_of_rng hr _, geneInBounds_of_rng hr _, geneInBounds_of_rng hr _,
    geneInBounds_of_rng hr _⟩,
   geneInBounds_of_rng hr _, geneInBounds_of_rng hr _, geneInBounds_of_rng hr _,
   geneInBounds_of_rng hr _⟩

theorem pick_bounds {a b : ℚ} (q : ℚ) (ha : GeneInBounds a) (hb : GeneInBounds b) :
    GeneInBounds (pick q a b) := by
  unfold pick
  split
  · exact ha
  · exact hb

theorem crossover_bounds (now : ℤ) (g : ℕ) {p1 p2 : Strategy} (r : Rng) (k : ℕ)
    (h1 : GenesInBounds p1.genes) (h2 : GenesInBounds p2.genes) :
    GenesInBounds (crossover now g p1 p2 r k).1.genes := by
  obtain ⟨a1, a2, a3, a4, a5, ⟨w1, w2, w3, w4⟩, a7, a8, a9, a10⟩ := h1
  obtain ⟨b1, b2, b3, b4, b5, ⟨x1, x2, x3, x4⟩, b7, b8, b9, b10⟩ := h2
  exact ⟨pick_bounds _ a1 b1, pick_bounds _ a2 b2, pick_bounds _ a3 b3,
    pick_bounds _ a4 b4, pick_bounds _ a5 b5,
    ⟨pick_bounds _ w1 x1, pick_bounds _ w2 x2, pick_bounds _ w3 x3,
     pick_bounds _ w4 x4⟩,
    pick_bounds _ a7 b7, pick_bounds _ a8 b8, pick_bounds _ a9 b9,
    pick_bounds _ a10 b10⟩

theorem clamp01_bounds (x : ℚ) : GeneInBounds (clamp01 x) :=
  ⟨le_max_left 0 _, max_le (by norm_num) (min_le_left 1 x)⟩

theorem mutateScalar_bounds {g : ℚ} (r : Rng) (k : ℕ) (hg : GeneInBounds g) :
    GeneInBounds (mutateScalar g r k).1 := by
  unfold mutateScalar
  split
  · exact clamp01_bounds _
  · exact hg

theorem mutateApi_bounds {p : ℚ} {r : Rng} (k : ℕ)
    (hr : ∀ i, 0 ≤ r i ∧ r i < 1) (hp : GeneInBounds p) :
    GeneInBounds (mutateApi p r k).1 := by
  unfold mutateApi
  split
  · exact geneInBounds_of_rng hr _
  · exact hp

theorem mutateApiPrefs_bounds {a : ApiPreferences} {r : Rng} (k : ℕ)
    (hr : ∀ i, 0 ≤ r i ∧ r i < 1) (ha : ApiInBounds a) :
    ApiInBounds (mutateApiPrefs a r k).1 := by
  obtain ⟨h1, h2, h3, h4⟩ := ha
  exact ⟨mutateApi_bounds _ hr h1, mutateApi_bounds _ hr h2,
    mutateApi_bounds _ hr h3, mutateApi_bounds _ hr h4⟩

theorem mutate_bounds {s : Strategy} {r : Rng} (k : ℕ)
    (hr : ∀ i, 0 ≤ r i ∧ r i < 1) (hs : GenesInBounds s.genes) :
    GenesInBounds (mutate s r k).1.genes := by
  obtain ⟨h1, h2, h3, h4, h5, h6, h7, h8, h9, h10⟩ := hs
  refine ⟨mutateScalar_bounds r _ h1, mutateScalar_bounds r _ h2,
    mutateScalar_bounds r _ h3, mutateScalar_bounds r _ h4,
    mutateScalar_bounds r _ h5, ?_,
    mutateScalar_bounds r _ h7, mutateScalar_bounds r _ h8,
    mutateScalar_bounds r _ h9, mutateScalar_bounds r _ h10⟩
  show ApiInBounds (if r (mutateScalar s.genes.noveltySeeking r
      (mutateScalar s.genes.connectionAffinity r
        (mutateScalar s.genes.recencyWeight r
          (mutateScalar s.genes.breadthPreference r
            (mutateScalar s.genes.explorationBias r k).2).2).2).2).2 < mutationRate
    then mutateApiPrefs s.genes.apiPreferences r
      ((mutateScalar s.genes.noveltySeeking r
        (mutateScalar s.genes.connectionAffinity r
          (mutateScalar s.genes.recencyWeight r
            (mutateScalar s.genes.breadthPreference r
              (mutateScalar s.genes.explorationBias r k).2).2).2).2).2 + 1)
    else (s.genes.apiPreferences,
      (mutateScalar s.genes.noveltySeeking r
        (mutateScalar s.genes.connectionAffinity r
          (mutateScalar s.genes.recencyWeight r
            (mutateScalar s.genes.breadthPreference r
              (mutateScalar s.genes.explorationBias r k).2).2).2).2).2 + 1)).1
  split
  · exact mutateApiPrefs_bounds _ hr h6
  · exact h6

theorem rouletteLoop_mem :
    ∀ (l : List (Strategy × ℚ)) (rem : ℚ) (s : Strategy),
      rouletteLoop l rem = some s → s ∈ l.map Prod.fst := by
  intro l
  induction l with
  | nil => intro rem s h; cases h
  | cons p rest ih =>
    intro rem s h
    unfold rouletteLoop at h
    split at h
    · obtain ⟨rfl⟩ := Option.some.inj h
      exact List.mem_cons_self _ _
    · exact List.mem_cons_of_mem _ (ih _ s h)

theorem adjustedFitness_fst (pop : List Strategy) :
    (adjustedFitness pop).map Prod.fst = pop := by
  unfold adjustedFitness
  rw [List.map_map]
  exact List.map_id pop

theorem selectParentD_mem (pop : List Strategy) (q : ℚ) (h : pop ≠ []) :
    selectParentD pop q ∈ pop := by
  unfold selectParentD selectParent
  cases hx : rouletteLoop (adjustedFitness pop)
      (q * ((adjustedFitness pop).map Prod.snd).sum) with
  | some t =>
    have := rouletteLoop_mem _ _ _ hx
    rw [adjustedFitness_fst] at this
    simpa [Option.orElse] using this
  | none =>
    cases pop with
    | nil => exact absurd rfl h
    | cons p rest => simp [Option.orElse, List.head?]

theorem makeOffspring_bounds (now : ℤ) (g : ℕ) {pop : List Strategy} {r : Rng}
    (k : ℕ) (hr : ∀ i, 0 ≤ r i ∧ r i < 1)
    (hpop : ∀ s ∈ pop, GenesInBounds s.genes) (hne : pop ≠ []) :
    GenesInBounds (makeOffspring now g pop r k).1.genes := by
  have hcross : GenesInBounds
      ((if r (k + 2) < crossoverRate then
          crossover now g (selectParentD pop (r k)) (selectParentD pop (r (k + 1)))
            r (k + 3)
        else (selectParentD pop (r k), k + 3)).1).genes := by
    split
    · exact crossover_bounds now g r (k + 3)
        (hpop _ (selectParentD_mem pop (r k) hne))
        (hpop _ (selectParentD_mem pop (r (k + 1)) hne))
    · exact hpop _ (selectParentD_mem pop (r k) hne)
  exact mutate_bounds _ hr hcross

theorem fillOffspring_length (now : ℤ) (g : ℕ) (pop : List Strategy) (r : Rng) :
    ∀ (need : ℕ) (acc : List Strategy) (k : ℕ),
      (fillOffspring now g pop r need acc k).1.length = acc.length + need := by
  intro need
  induction need with
  | zero => intro acc k; rfl
  | succ n ih =>
    intro acc k
    show (fillOffspring now g pop r n
      (acc ++ [(makeOffspring now g pop r k).1]) _).1.length = _
    rw [ih]
    simp only [List.length_append, List.length_cons, List.length_nil]
    omega

theorem fillOffspring_bounds (now : ℤ) (g : ℕ) {pop : List Strategy} {r : Rng}
    (hr : ∀ i, 0 ≤ r i ∧ r i < 1)
    (hpop : ∀ s ∈ pop, GenesInBounds s.genes) (hne : pop ≠ []) :
    ∀ (need : ℕ) (acc : List Strategy) (k : ℕ),
      (∀ s ∈ acc, GenesInBounds s.genes) →
      ∀ s ∈ (fillOffspring now g pop r need acc k).1, GenesInBounds s.genes := by
  intro need
  induction need with
  | zero => intro acc k hacc; exact hacc
  | succ n ih =>
    intro acc k hacc
    show ∀ s ∈ (fillOffspring now g pop r n
      (acc ++ [(makeOffspring now g pop r k).1]) _).1, GenesInBounds s.genes
    refine ih _ _ ?_
    intro s hs
    rcases List.mem_append.mp hs with hs | hs
    · exact hacc s hs
    · rw [List.mem_singleton] at hs
      subst hs
      exact makeOffspring_bounds now g k hr hpop hne

theorem sortByFitnessDesc_perm (pop : List Strategy) :
    List.Perm (sortByFitnessDesc pop) pop :=
  List.perm_insertionSort _ pop

theorem evolve_big_population (now : ℤ) (r : Rng) (k : ℕ) (st : GeneticsState)
    (h2 : 2 ≤ st.population.length) :
    (evolve now r k st).1.population =
      evolveElites st ++ evolveOffspring now r k st := by
  unfold evolve
  rw [if_neg (not_lt.mpr h2)]

theorem evolveElites_length (st : GeneticsState)
    (h2 : 2 ≤ st.population.length) : (evolveElites st).length = 2 := by
  unfold evolveElites
  rw [List.length_map, List.length_take, (sortByFitnessDesc_perm _).length_eq]
  exact min_eq_left h2

/-- The population size after `evolve` on ≥ 2 genomes is the configured
`populationSize`, whatever the size before. -/
theorem evolve_population_length (now : ℤ) (r : Rng) (k : ℕ)
    (st : GeneticsState) (h2 : 2 ≤ st.population.length) :
    (evolve now r k st).1.population.length = populationSize := by
  rw [evolve_big_population now r k st h2, List.length_append,
    evolveElites_length st h2]
  unfold evolveOffspring
  rw [fillOffspring_length, evolveElites_length st h2]
  rfl

/-- The concrete three-genome population refuting the size claim. -/
def evoCexStrategy (f : ℚ) : Strategy :=
  { dummyStrategy with id := f, fitness := f }

def evoCexState : GeneticsState :=
  { population := [evoCexStrategy 1, evoCexStrategy 2, evoCexStrategy 3],
    generation := 5, evolutionHistory := [], bestStrategy := none }

/-- **C1, counterexample.**  On a population of 3 genomes (≥ 2), `evolve`
produces a population of `populationSize = 10` genomes, not 3: the size is
not preserved. -/
theorem evolve_size_cex :
    (evolve 0 (fun _ => 0) 0 evoCexState).1.population.length ≠
      evoCexState.population.length := by
  rw [evolve_population_length 0 (fun _ => 0) 0 evoCexState (by decide)]
  decide

/-- **C1, amended.**  For every call on a population of at least 2 genomes,
the population size after the call equals the configured `populationSize`
(so it equals the size before exactly when the population already has
`populationSize` genomes); every gene value (each scalar gene and each
`apiPreferences` entry) of every genome in the new population lies in
`[0,1]`, given that the input genomes' genes do and that every random draw
lies in `[0,1)`; and for every call on a population of size < 2, the state —
population and generation counter included — is left unchanged. -/
theorem evolve_invariants (now : ℤ) (r : Rng) (k : ℕ) (st : GeneticsState)
    (hr : ∀ i, 0 ≤ r i ∧ r i < 1)
    (hb : ∀ s ∈ st.population, GenesInBounds s.genes) :
    (2 ≤ st.population.length →
      (evolve now r k st).1.population.length = populationSize ∧
      ∀ s ∈ (evolve now r k st).1.population, GenesInBounds s.genes) ∧
    (st.population.length < 2 → evolve now r k st = (st, none, k)) := by
  constructor
  · intro h2
    refine ⟨evolve_population_length now r k st h2, ?_⟩
    intro s hs
    rw [evolve_big_population now r k st h2] at hs
    have hsortb : ∀ t ∈ sortByFitnessDesc st.population, GenesInBounds t.genes :=
      fun t ht => hb t ((sortByFitnessDesc_perm _).mem_iff.mp ht)
    rcases List.mem_append.mp hs with hs | hs
    · unfold evolveElites at hs
      obtain ⟨t, ht, rfl⟩ := List.mem_map.mp hs
      exact hsortb t (List.mem_of_mem_take ht)
    · have hne : sortByFitnessDesc st.population ≠ [] := by
        intro hnil
        rw [← (sortByFitnessDesc_perm st.population).length_eq, hnil] at h2
        cases h2
      exact fillOffspring_bounds now st.generation hr hsortb hne _ [] k
        (fun t ht => absurd ht (List.not_mem_nil t)) s hs
  · intro hlt
    unfold evolve
    rw [if_pos hlt]

/-- Witness population for C1: two genomes with all genes 0. -/
def evoWitState : GeneticsState :=
  { population := [evoCexStrategy 0, evoCexStrategy 1],
    generation := 0, evolutionHistory := [], bestStrategy := none }

theorem evolve_invariants_witness :
    (2 ≤ evoWitState.population.length →
      (evolve 3 (fun _ => 1 / 2) 0 evoWitState).1.population.length =
        populationSize ∧
      ∀ s ∈ (evolve 3 (fun _ => 1 / 2) 0 evoWitState).1.population,
        GenesInBounds s.genes) ∧
    (evoWitState.population.length < 2 →
      evolve 3 (fun _ => 1 / 2) 0 evoWitState = (evoWitState, none, 0)) :=
  evolve_invariants 3 (fun _ => 1 / 2) 0 evoWitState
    (fun _ => by norm_num)
    (by
      intro s hs
      have hzero : GenesInBounds dummyStrategy.genes := by
        refine ⟨?_, ?_, ?_, ?_, ?_, ⟨?_, ?_, ?_, ?_⟩, ?_, ?_, ?_, ?_⟩ <;>
          exact ⟨le_refl 0, show (0 : ℚ) ≤ 1 by norm_num⟩
      rcases List.mem_cons.mp hs with rfl | hs
      · exact hzero
      · rcases List.mem_cons.mp hs with rfl | hs
        · exact hzero
        · exact absurd hs (List.not_mem_nil s))

end AutoBrowser
